import Mathlib

/-!
Verification of the cpp-sbom-builder multi-strategy detection and merge engine
(repository StinkyLord/IBuildHW).  The Go sources under `internal/scanner`,
`internal/strategies`, `internal/model`, `internal/fingerprints` and
`internal/output` are shallowly embedded below: pure Go functions become Lean
functions on `String`/`List`, Go maps become association lists (in insertion
order), and the filesystem is abstracted as an explicit oracle parameter where
a strategy consults `os.Stat`.  The engine is built and run on Linux (Docker
image), so `filepath` primitives are embedded with their Linux semantics
(`Separator = '/'`, `IsAbs p = HasPrefix p "/"`, `ToSlash = id`); Go's
Unicode-aware `strings.ToLower` is embedded as ASCII lowering, which agrees
with it on all strings appearing in the repository and its data.
-/

namespace CppSbom

/-! ## Go string primitives -/

/-- Character class of Go's regexp `\s`, i.e. `[\t\n\f\r ]`. -/
def goIsSpaceRe (c : Char) : Bool :=
  c = ' ' || c = '\t' || c = '\n' || c = '\x0c' || c = '\r'

/-- ASCII part of Go's `unicode.IsSpace`, used by `strings.TrimSpace`:
`[\t\n\v\f\r ]`. -/
def goIsSpace (c : Char) : Bool :=
  c = ' ' || c = '\t' || c = '\n' || c = '\x0b' || c = '\x0c' || c = '\r'

/-- Whether `needle` occurs as a contiguous sublist of `hay`
(Go `strings.Contains` on the underlying bytes, here on chars). -/
def listContainsSub (hay needle : List Char) : Bool :=
  if needle.isPrefixOf hay then true
  else
    match hay with
    | [] => false
    | _ :: t => listContainsSub t needle

/-- Go `strings.Contains`. -/
def goContains (s sub : String) : Bool :=
  listContainsSub s.data sub.data

/-- Go `strings.HasPrefix`. -/
def goStartsWith (s pre : String) : Bool :=
  pre.data.isPrefixOf s.data

/-- Go `strings.HasSuffix`. -/
def goEndsWith (s suf : String) : Bool :=
  suf.data.isSuffixOf s.data

/-- Go `strings.TrimPrefix`. -/
def goTrimLeading (s pre : String) : String :=
  if goStartsWith s pre then ⟨s.data.drop pre.data.length⟩ else s

/-- Go `strings.TrimSuffix`. -/
def goTrimTrailing (s suf : String) : String :=
  if goEndsWith s suf then ⟨s.data.take (s.data.length - suf.data.length)⟩ else s

/-- Go `strings.TrimSpace` (ASCII whitespace). -/
def goTrimSpace (s : String) : String :=
  ⟨((s.data.dropWhile goIsSpace).reverse.dropWhile goIsSpace).reverse⟩

/-- Go `strings.ToLower`, restricted to ASCII (all repository data is ASCII). -/
def goToLower (s : String) : String :=
  ⟨s.data.map Char.toLower⟩

/-- Go `strings.ReplaceAll s old new` for single-character `old`/`new`. -/
def goReplaceAllChar (s : String) (old new : Char) : String :=
  ⟨s.data.map (fun c => if c = old then new else c)⟩

/-- Go `strings.ReplaceAll s old new` where `new` may be several characters
(used for the `%2F` escaping of Conan channels). -/
def goReplaceAllCharStr (s : String) (old : Char) (new : String) : String :=
  ⟨(s.data.map (fun c => if c = old then new.data else [c])).flatten⟩

/-- Go `path/filepath.IsAbs` on Linux: the path starts with `/`. -/
def goIsAbs (s : String) : Bool :=
  goStartsWith s "/"

/-- Go `path/filepath.ToSlash` on Linux: the separator already is `/`, so the
function is the identity. -/
def goToSlash (s : String) : String := s

/-- Go `path/filepath.Base` on Linux: strip trailing slashes, then take the
last `/`-separated element; empty input gives `"."`, all-slashes give `"/"`. -/
def goBase (s : String) : String :=
  if s = "" then "."
  else
    let noTrail := s.data.reverse.dropWhile (· = '/')
    if noTrail = [] then "/"
    else ⟨(noTrail.takeWhile (· ≠ '/')).reverse⟩

/-! ## Component model (`internal/model`) -/

/-- Component is the entity produced by every detection strategy
(`internal/model`; the struct fields are those used by the scanner, the
strategies and the CycloneDX serializer). -/
structure Component where
  name : String := ""
  version : String := ""
  purl : String := ""
  revision : String := ""
  channel : String := ""
  description : String := ""
  detectionSource : String := ""
  includePaths : List String := []
  linkLibraries : List String := []
  isDirect : Bool := false
  dependencies : List String := []
deriving Repr, DecidableEq

/-- Go `appendUniqueStr` in `internal/scanner/scanner.go`: append a string to
a slice unless it is already present. -/
def appendUniqueStr (slice : List String) (s : String) : List String :=
  if slice.contains s then slice else slice ++ [s]

/-- Go `normalizeName` in `internal/scanner/scanner.go`: lowercase, then
replace `_` and `.` by `-`. -/
def normalizeName (name : String) : String :=
  goReplaceAllChar (goReplaceAllChar (goToLower name) '_' '-') '.' '-'

/-- Go `sourceRank` in `internal/scanner/scanner.go`: priority score of a
detection source. -/
def sourceRank (source : String) : Nat :=
  if source = "conan-graph" then 11
  else if source = "conan" || source = "vcpkg" then 10
  else if source = "compile_commands.json" then 9
  else if source = "linker-map" then 8
  else if source = "build-logs" then 7
  else if source = "cmake" then 6
  else if source = "meson" then 5
  else if source = "header-scan" then 1
  else 0

/-- Field-wise merge of an incoming detection into the existing component with
the same key: the body of Go `mergeComponent` (scanner.go lines 336-360) after
the map lookup succeeded.  Statement order mirrors the Go code: version/PURL
adoption, detection-source adoption, evidence unions, description fill. -/
def mergeFields (existing incoming : Component) : Component :=
  let e1 :=
    if existing.version = "unknown" ∧ incoming.version ≠ "unknown" then
      { existing with version := incoming.version, purl := incoming.purl }
    else existing
  let e2 :=
    if sourceRank incoming.detectionSource > sourceRank e1.detectionSource then
      { e1 with detectionSource := incoming.detectionSource }
    else e1
  let e3 := { e2 with includePaths := incoming.includePaths.foldl appendUniqueStr e2.includePaths }
  let e4 := { e3 with linkLibraries := incoming.linkLibraries.foldl appendUniqueStr e3.linkLibraries }
  if e4.description = "" ∧ incoming.description ≠ "" then
    { e4 with description := incoming.description }
  else e4

/-- Lookup in an association list (the embedding of a Go `map[string]T`
access). -/
def lookupKey (m : List (String × Component)) (k : String) : Option Component :=
  match m with
  | [] => none
  | (k', v) :: t => if k' = k then some v else lookupKey t k

/-- Replace the value stored under key `k` (the embedding of a Go map
assignment to an existing key). -/
def updateKey (m : List (String × Component)) (k : String) (v : Component) :
    List (String × Component) :=
  match m with
  | [] => []
  | (k', w) :: t => if k' = k then (k', v) :: t else (k', w) :: updateKey t k v

/-- Go `mergeComponent` in `internal/scanner/scanner.go`: insert a newly
detected component into the accumulated map keyed by `normalizeName`, merging
field-wise when the key is already present. -/
def mergeComponent (merged : List (String × Component)) (incoming : Component) :
    List (String × Component) :=
  let key := normalizeName incoming.name
  match lookupKey merged key with
  | none => merged ++ [(key, incoming)]
  | some existing => updateKey merged key (mergeFields existing incoming)

/-- The collection loop of `Scanner.Scan` (scanner.go lines 194-210): merge a
list of detections, in arrival order, into the map. -/
def mergeList (comps : List Component) : List (String × Component) :=
  comps.foldl mergeComponent []

/-- Components emitted from the merged map (scanner.go lines 213-216). -/
def mergedComponents (comps : List Component) : List Component :=
  (mergeList comps).map Prod.snd

/-! ## Lemmas about the field-wise merge -/

theorem mergeFields_name (e i : Component) : (mergeFields e i).name = e.name := by
  simp only [mergeFields]
  repeat' split <;> simp_all

theorem mergeFields_revision (e i : Component) :
    (mergeFields e i).revision = e.revision := by
  simp only [mergeFields]
  repeat' split <;> simp_all

theorem mergeFields_channel (e i : Component) :
    (mergeFields e i).channel = e.channel := by
  simp only [mergeFields]
  repeat' split <;> simp_all

theorem mergeFields_detectionSource (e i : Component) :
    (mergeFields e i).detectionSource =
      if sourceRank i.detectionSource > sourceRank e.detectionSource then
        i.detectionSource
      else e.detectionSource := by
  simp only [mergeFields]
  repeat' split <;> simp_all

theorem mergeFields_version_known (e i : Component) (h : e.version ≠ "unknown") :
    (mergeFields e i).version = e.version ∧ (mergeFields e i).purl = e.purl := by
  simp only [mergeFields]
  repeat' split <;> simp_all

theorem mergeFields_version_adopt (e i : Component) (h1 : e.version = "unknown")
    (h2 : i.version ≠ "unknown") :
    (mergeFields e i).version = i.version ∧ (mergeFields e i).purl = i.purl := by
  simp only [mergeFields]
  repeat' split <;> simp_all

theorem mergeFields_version_change (e i : Component)
    (h : (mergeFields e i).version ≠ e.version) :
    e.version = "unknown" ∧ i.version ≠ "unknown" := by
  by_cases h1 : e.version = "unknown" ∧ i.version ≠ "unknown"
  · exact h1
  · exfalso
    apply h
    simp only [mergeFields]
    repeat' split <;> simp_all

theorem foldl_mergeFields_name (cs : List Component) (e : Component) :
    (cs.foldl mergeFields e).name = e.name := by
  induction cs generalizing e with
  | nil => rfl
  | cons c cs ih => simpa [List.foldl_cons, mergeFields_name] using ih (mergeFields e c)

theorem foldl_mergeFields_version_known (cs : List Component) (e : Component)
    (h : e.version ≠ "unknown") :
    (cs.foldl mergeFields e).version = e.version ∧
      (cs.foldl mergeFields e).purl = e.purl := by
  induction cs generalizing e with
  | nil => exact ⟨rfl, rfl⟩
  | cons c cs ih =>
    have hk := mergeFields_version_known e c h
    have ih' := ih (mergeFields e c) (by rw [hk.1]; exact h)
    exact ⟨by rw [List.foldl_cons, ih'.1, hk.1], by rw [List.foldl_cons, ih'.2, hk.2]⟩

theorem foldl_mergeFields_detectionSource (cs : List Component) (e : Component) :
    (cs.foldl mergeFields e).detectionSource ∈
        (e :: cs).map (fun c => c.detectionSource) ∧
      ∀ c ∈ e :: cs,
        sourceRank c.detectionSource ≤
          sourceRank (cs.foldl mergeFields e).detectionSource := by
  induction cs generalizing e with
  | nil => simp
  | cons c cs ih =>
    have ih' := ih (mergeFields e c)
    have hds := mergeFields_detectionSource e c
    rw [List.foldl_cons]
    constructor
    · have h1 := ih'.1
      rw [List.map_cons, List.mem_cons] at h1
      rcases h1 with hmem | hmem
      · simp only [List.mem_map, List.mem_cons] at hmem ⊢
        rw [hds] at hmem
        split at hmem
        · exact ⟨c, Or.inr (Or.inl rfl), hmem.symm⟩
        · exact ⟨e, Or.inl rfl, hmem.symm⟩
      · simp only [List.mem_map, List.mem_cons] at hmem ⊢
        obtain ⟨d, hd, hde⟩ := hmem
        exact ⟨d, Or.inr (Or.inr hd), hde⟩
    · intro d hd
      have hbound := ih'.2
      simp only [List.mem_cons] at hd
      rcases hd with hd | hd | hd
      · have h1 : sourceRank e.detectionSource ≤
            sourceRank (mergeFields e c).detectionSource := by
          rw [hds]; split <;> omega
        subst hd
        exact le_trans h1 (hbound _ (List.mem_cons_self _ _))
      · have h1 : sourceRank c.detectionSource ≤
            sourceRank (mergeFields e c).detectionSource := by
          rw [hds]; split <;> omega
        subst hd
        exact le_trans h1 (hbound _ (List.mem_cons_self _ _))
      · exact hbound d (List.mem_cons_of_mem _ hd)

/-! ## Lemmas about the merged map -/

theorem lookupKey_append_single (m : List (String × Component)) (k0 k : String)
    (v : Component) :
    lookupKey (m ++ [(k0, v)]) k =
      match lookupKey m k with
      | some w => some w
      | none => if k0 = k then some v else none := by
  induction m with
  | nil => simp [lookupKey]
  | cons p t ih =>
    obtain ⟨k', w⟩ := p
    by_cases h : k' = k <;> simp [lookupKey, h, ih]

theorem lookupKey_updateKey (m : List (String × Component)) (k0 k : String)
    (v : Component) :
    lookupKey (updateKey m k0 v) k =
      if k0 = k then
        match lookupKey m k0 with
        | some _ => some v
        | none => none
      else lookupKey m k := by
  induction m with
  | nil => simp [lookupKey, updateKey]
  | cons p t ih =>
    obtain ⟨k', w⟩ := p
    by_cases h1 : k' = k0
    · subst h1
      by_cases h2 : k' = k
      · subst h2
        simp [lookupKey, updateKey]
      · simp [lookupKey, updateKey, h2]
    · by_cases h2 : k' = k
      · subst h2
        have h3 : ¬(k0 = k') := fun h => h1 h.symm
        simp [lookupKey, updateKey, h1, h3]
      · simp [lookupKey, updateKey, h1, h2, ih]

theorem keys_updateKey (m : List (String × Component)) (k0 : String) (v : Component) :
    (updateKey m k0 v).map Prod.fst = m.map Prod.fst := by
  induction m with
  | nil => rfl
  | cons p t ih =>
    obtain ⟨k', w⟩ := p
    by_cases h : k' = k0 <;> simp [updateKey, h, ih]

theorem lookupKey_eq_none_iff (m : List (String × Component)) (k : String) :
    lookupKey m k = none ↔ k ∉ m.map Prod.fst := by
  induction m with
  | nil => simp [lookupKey]
  | cons p t ih =>
    obtain ⟨k', w⟩ := p
    by_cases h : k' = k
    · subst h
      simp [lookupKey]
    · have hL : lookupKey ((k', w) :: t) k = lookupKey t k := by
        simp [lookupKey, h]
      rw [hL, ih, List.map_cons]
      constructor
      · intro hk hmem
        rcases List.mem_cons.mp hmem with h' | h'
        · exact h h'.symm
        · exact hk h'
      · intro hk hmem
        exact hk (List.mem_cons_of_mem _ hmem)

theorem lookupKey_mem (m : List (String × Component)) (k : String) (v : Component)
    (h : lookupKey m k = some v) : (k, v) ∈ m := by
  induction m with
  | nil => simp [lookupKey] at h
  | cons p t ih =>
    obtain ⟨k', w⟩ := p
    by_cases hk : k' = k
    · subst hk
      simp [lookupKey] at h
      subst h
      exact List.mem_cons_self _ _
    · simp [lookupKey, hk] at h
      exact List.mem_cons_of_mem _ (ih h)

theorem mem_updateKey (m : List (String × Component)) (k0 : String) (v : Component)
    (p : String × Component) (h : p ∈ updateKey m k0 v) :
    p ∈ m ∨ p = (k0, v) := by
  induction m with
  | nil => simp [updateKey] at h
  | cons q t ih =>
    obtain ⟨k', w⟩ := q
    simp only [updateKey] at h
    split at h
    · rename_i hk
      rcases List.mem_cons.mp h with h' | h'
      · exact Or.inr (by rw [h', hk])
      · exact Or.inl (List.mem_cons_of_mem _ h')
    · rcases List.mem_cons.mp h with h' | h'
      · exact Or.inl (by rw [h']; exact List.mem_cons_self _ _)
      · rcases ih h' with h2 | h2
        · exact Or.inl (List.mem_cons_of_mem _ h2)
        · exact Or.inr h2

theorem lookupKey_mergeComponent (m : List (String × Component)) (c : Component)
    (k : String) :
    lookupKey (mergeComponent m c) k =
      if normalizeName c.name = k then
        match lookupKey m k with
        | none => some c
        | some e => some (mergeFields e c)
      else lookupKey m k := by
  unfold mergeComponent
  by_cases hk : normalizeName c.name = k
  · subst hk
    cases h : lookupKey m (normalizeName c.name) with
    | none => simp [h, lookupKey_append_single]
    | some e => simp [h, lookupKey_updateKey]
  · cases h : lookupKey m (normalizeName c.name) with
    | none =>
      simp only [h, lookupKey_append_single]
      cases h2 : lookupKey m k <;> simp [hk]
    | some e => simp [h, lookupKey_updateKey, hk]

theorem keys_mergeComponent (m : List (String × Component)) (c : Component) :
    (mergeComponent m c).map Prod.fst =
      if lookupKey m (normalizeName c.name) = none then
        m.map Prod.fst ++ [normalizeName c.name]
      else m.map Prod.fst := by
  unfold mergeComponent
  cases h : lookupKey m (normalizeName c.name) with
  | none => simp [h]
  | some e => simp [h, keys_updateKey]

/-- The result of a fold of `mergeFields` over a nonempty contribution list,
as an `Option`. -/
def foldMergeOpt : List Component → Option Component
  | [] => none
  | c :: cs => some (cs.foldl mergeFields c)

theorem foldMergeOpt_append_single (l : List Component) (c : Component) :
    foldMergeOpt (l ++ [c]) =
      match foldMergeOpt l with
      | none => some c
      | some e => some (mergeFields e c) := by
  cases l with
  | nil => rfl
  | cons c0 cs => simp [foldMergeOpt, List.foldl_append]

/-- Characterization of the merged map: the entry stored under key `k` is the
`mergeFields` fold over the detections whose normalized name is `k`, in
arrival order. -/
theorem lookupKey_mergeList (comps : List Component) (k : String) :
    lookupKey (mergeList comps) k =
      foldMergeOpt (comps.filter (fun c => normalizeName c.name = k)) := by
  induction comps using List.reverseRecOn with
  | nil => rfl
  | append_singleton l c ih =>
    have hstep : mergeList (l ++ [c]) = mergeComponent (mergeList l) c := by
      simp [mergeList, List.foldl_append]
    rw [hstep, lookupKey_mergeComponent, List.filter_append]
    by_cases hk : normalizeName c.name = k
    · simp only [if_pos hk, ih]
      have : List.filter (fun c => decide (normalizeName c.name = k)) [c] = [c] := by
        simp [hk]
      rw [this, foldMergeOpt_append_single]
    · simp only [if_neg hk, ih]
      have : List.filter (fun c => decide (normalizeName c.name = k)) [c] = [] := by
        simp [hk]
      rw [this, List.append_nil]

theorem keys_mergeList_nodup (comps : List Component) :
    ((mergeList comps).map Prod.fst).Nodup := by
  induction comps using List.reverseRecOn with
  | nil => simp [mergeList]
  | append_singleton l c ih =>
    have hstep : mergeList (l ++ [c]) = mergeComponent (mergeList l) c := by
      simp [mergeList, List.foldl_append]
    rw [hstep, keys_mergeComponent]
    split
    · rename_i hnone
      rw [lookupKey_eq_none_iff] at hnone
      rw [List.nodup_append]
      refine ⟨ih, List.nodup_singleton _, ?_⟩
      intro a ha hk
      rw [List.mem_singleton] at hk
      subst hk
      exact hnone ha
    · exact ih

theorem mem_mergeList_key (comps : List Component) :
    ∀ p ∈ mergeList comps, p.1 = normalizeName p.2.name := by
  induction comps using List.reverseRecOn with
  | nil =>
    intro p hp
    simp [mergeList] at hp
  | append_singleton l c ih =>
    intro p h
    have hstep : mergeList (l ++ [c]) = mergeComponent (mergeList l) c := by
      simp [mergeList, List.foldl_append]
    rw [hstep] at h
    cases hl : lookupKey (mergeList l) (normalizeName c.name) with
    | none =>
      simp only [mergeComponent, hl] at h
      rcases List.mem_append.mp h with h' | h'
      · exact ih p h'
      · rw [List.mem_singleton] at h'
        rw [h']
    | some e =>
      simp only [mergeComponent, hl] at h
      rcases mem_updateKey _ _ _ _ h with h' | h'
      · exact ih p h'
      · have hek := ih (normalizeName c.name, e) (lookupKey_mem _ _ _ hl)
        simp only at hek
        rw [h']
        simp only
        rw [mergeFields_name]
        exact hek

theorem alist_nodup_unique (m : List (String × Component)) (k : String)
    (a b : Component) (hnd : (m.map Prod.fst).Nodup) (ha : (k, a) ∈ m)
    (hb : (k, b) ∈ m) : a = b := by
  induction m with
  | nil => simp at ha
  | cons p t ih =>
    simp only [List.map_cons, List.nodup_cons] at hnd
    simp only [List.mem_cons] at ha hb
    rcases ha with ha | ha <;> rcases hb with hb | hb
    · exact congrArg Prod.snd (ha.trans hb.symm)
    · exfalso
      apply hnd.1
      have h2 : k ∈ t.map Prod.fst := by
        simpa using List.mem_map_of_mem Prod.fst hb
      have h3 : p.1 = k := by rw [← ha]
      rw [h3]
      exact h2
    · exfalso
      apply hnd.1
      have h2 : k ∈ t.map Prod.fst := by
        simpa using List.mem_map_of_mem Prod.fst ha
      have h3 : p.1 = k := by rw [← hb]
      rw [h3]
      exact h2
    · exact ih hnd.2 ha hb

/-! ## Sample detections used by witnesses and counterexamples -/

/-- A `zlib` detection as produced by the header-scan strategy: unknown
version, bare fingerprint PURL. -/
def zlibHeaderDet : Component :=
  { name := "zlib", version := "unknown", purl := "pkg:conan/zlib",
    detectionSource := "header-scan", description := "zlib compression library",
    includePaths := ["zlib.h"] }

/-- A `zlib` detection as produced by the Conan strategy, with revision and
channel. -/
def zlibConanDet : Component :=
  { name := "zlib", version := "1.2.13", purl := "pkg:conan/zlib@1.2.13",
    revision := "abc123", channel := "conan/stable", detectionSource := "conan" }

/-- A conflicting `zlib` detection from vcpkg (same rank as Conan). -/
def zlibVcpkgDet : Component :=
  { name := "zlib", version := "1.3", purl := "pkg:conan/zlib@1.3",
    detectionSource := "vcpkg" }

/-- A higher-ranked `zlib` detection from conan-graph with a different
version. -/
def zlibGraphDet : Component :=
  { name := "zlib", version := "9.9", purl := "pkg:conan/zlib@9.9",
    detectionSource := "conan-graph" }

/-- Two detections of the same library at different known versions. -/
def zlibV1Det : Component :=
  { name := "zlib", version := "1.0", purl := "pkg:conan/zlib@1.0",
    detectionSource := "conan" }

/-- Second version of the same library. -/
def zlibV2Det : Component :=
  { name := "Zlib", version := "2.0", purl := "pkg:conan/zlib@2.0",
    detectionSource := "vcpkg" }

/-! ## Claim C1: component identity in the merge -/

/-- C1 counterexample: two detections with the same normalized name but
different versions (`1.0` vs `2.0`) do NOT remain distinct components — the
merge map is keyed by `normalizeName(name)` alone (scanner.go line 329), so
they collapse into a single emitted component.  This refutes the claim that
the identity key is `normalize(name)+"@"+version`. -/
theorem c1_identity_counterexample :
    normalizeName zlibV1Det.name = normalizeName zlibV2Det.name ∧
      zlibV1Det.version ≠ zlibV2Det.version ∧
      (mergedComponents [zlibV1Det, zlibV2Det]).length = 1 := by
  decide

/-- C1 (amended): component identity is `normalize(name)` alone.  Two
detections merge into the same component exactly when their normalized names
are equal, regardless of version: every pair of emitted components with equal
normalized names is a single component, and every detection is represented by
an emitted component with its normalized name. -/
theorem c1_identity_by_normalized_name :
    (∀ comps : List Component, ∀ A ∈ mergedComponents comps,
        ∀ B ∈ mergedComponents comps,
          normalizeName A.name = normalizeName B.name → A = B) ∧
      (∀ comps : List Component, ∀ c ∈ comps,
        ∃ A ∈ mergedComponents comps,
          normalizeName A.name = normalizeName c.name) := by
  constructor
  · intro comps A hA B hB hAB
    obtain ⟨pA, hpA, hA2⟩ := List.mem_map.mp hA
    obtain ⟨pB, hpB, hB2⟩ := List.mem_map.mp hB
    have hkA := mem_mergeList_key comps pA hpA
    have hkB := mem_mergeList_key comps pB hpB
    have hA3 : (normalizeName A.name, A) ∈ mergeList comps := by
      have hp : pA = (normalizeName A.name, A) := by
        obtain ⟨k1, v1⟩ := pA
        simp only at hA2 hkA
        rw [hA2] at hkA ⊢
        rw [hkA]
      rwa [hp] at hpA
    have hB3 : (normalizeName A.name, B) ∈ mergeList comps := by
      have hp : pB = (normalizeName A.name, B) := by
        obtain ⟨k1, v1⟩ := pB
        simp only at hB2 hkB
        rw [hB2] at hkB ⊢
        rw [hkB, hAB]
      rwa [hp] at hpB
    exact alist_nodup_unique _ _ _ _ (keys_mergeList_nodup comps) hA3 hB3
  · intro comps c hc
    have hfilter : c ∈ comps.filter (fun d => normalizeName d.name = normalizeName c.name) := by
      simp [List.mem_filter, hc]
    cases hf : comps.filter (fun d => normalizeName d.name = normalizeName c.name) with
    | nil =>
      rw [hf] at hfilter
      simp at hfilter
    | cons c0 cs =>
      have hlook := lookupKey_mergeList comps (normalizeName c.name)
      rw [hf] at hlook
      have hmem := lookupKey_mem _ _ _ hlook
      refine ⟨cs.foldl mergeFields c0, List.mem_map_of_mem Prod.snd hmem, ?_⟩
      have hc0 : c0 ∈ comps.filter (fun d => normalizeName d.name = normalizeName c.name) := by
        rw [hf]
        exact List.mem_cons_self _ _
      have hc0' := (List.mem_filter.mp hc0).2
      rw [foldl_mergeFields_name]
      exact of_decide_eq_true hc0'

/-- C1 witness: instantiation of the amended identity theorem at a concrete
merge of two same-named detections. -/
theorem c1_identity_by_normalized_name_witness :
    ∃ A ∈ mergedComponents [zlibV1Det, zlibV2Det],
      normalizeName A.name = normalizeName zlibV2Det.name :=
  c1_identity_by_normalized_name.2 [zlibV1Det, zlibV2Det] zlibV2Det
    (by decide)

/-! ## Claim C2: detection source and confidence ranks -/

/-- C2: the detection source of every merged component is the highest-ranked
source among the detections that contributed to its key (it is one of the
contributing sources and its rank bounds all of them), and during a single
merge the incoming source is adopted exactly when its rank is strictly
greater than the existing one. -/
theorem c2_detection_source_highest_rank :
    (∀ (comps : List Component) (k : String) (e : Component),
        lookupKey (mergeList comps) k = some e →
          e.detectionSource ∈
              (comps.filter (fun c => normalizeName c.name = k)).map
                (fun c => c.detectionSource) ∧
            ∀ c ∈ comps.filter (fun c => normalizeName c.name = k),
              sourceRank c.detectionSource ≤ sourceRank e.detectionSource) ∧
      (∀ e i : Component,
        (mergeFields e i).detectionSource =
          if sourceRank i.detectionSource > sourceRank e.detectionSource then
            i.detectionSource
          else e.detectionSource) := by
  constructor
  · intro comps k e he
    rw [lookupKey_mergeList] at he
    cases hf : comps.filter (fun c => normalizeName c.name = k) with
    | nil =>
      rw [hf] at he
      simp [foldMergeOpt] at he
    | cons c0 cs =>
      rw [hf] at he
      simp only [foldMergeOpt, Option.some.injEq] at he
      subst he
      exact foldl_mergeFields_detectionSource cs c0
  · exact mergeFields_detectionSource

/-- C2 witness: merging a header-scan detection (rank 1) with a Conan
detection (rank 10) yields `conan` as detection source, which is the
highest-ranked contributing source. -/
theorem c2_detection_source_highest_rank_witness :
    (mergeFields zlibHeaderDet zlibConanDet).detectionSource ∈
        ([zlibHeaderDet, zlibConanDet].filter
          (fun c => normalizeName c.name = "zlib")).map
          (fun c => c.detectionSource) ∧
      ∀ c ∈ [zlibHeaderDet, zlibConanDet].filter
          (fun c => normalizeName c.name = "zlib"),
        sourceRank c.detectionSource ≤
          sourceRank (mergeFields zlibHeaderDet zlibConanDet).detectionSource :=
  c2_detection_source_highest_rank.1 [zlibHeaderDet, zlibConanDet] "zlib"
    (mergeFields zlibHeaderDet zlibConanDet) (by decide)

/-! ## Claim C5: what the merge adopts together with the version -/

/-- C5 counterexample: merging a detection with version `unknown` with an
incoming Conan detection adopts the incoming version and PURL but leaves
`revision` and `channel` untouched (Go `mergeComponent` never copies them),
refuting the claim that revision and channel follow the version adoption. -/
theorem c5_revision_channel_counterexample :
    zlibHeaderDet.version = "unknown" ∧
      zlibConanDet.version ≠ "unknown" ∧
      (mergeFields zlibHeaderDet zlibConanDet).version = zlibConanDet.version ∧
      (mergeFields zlibHeaderDet zlibConanDet).purl = zlibConanDet.purl ∧
      zlibConanDet.revision ≠ "" ∧
      zlibConanDet.channel ≠ "" ∧
      (mergeFields zlibHeaderDet zlibConanDet).revision ≠ zlibConanDet.revision ∧
      (mergeFields zlibHeaderDet zlibConanDet).channel ≠ zlibConanDet.channel := by
  decide

/-- C5 (amended): when the existing version is `unknown` and the incoming one
is not, the merge adopts the incoming version and PURL, while revision and
channel always keep their existing values (they do not follow the version). -/
theorem c5_version_purl_adoption (e i : Component) (h1 : e.version = "unknown")
    (h2 : i.version ≠ "unknown") :
    (mergeFields e i).version = i.version ∧
      (mergeFields e i).purl = i.purl ∧
      (mergeFields e i).revision = e.revision ∧
      (mergeFields e i).channel = e.channel :=
  ⟨(mergeFields_version_adopt e i h1 h2).1, (mergeFields_version_adopt e i h1 h2).2,
    mergeFields_revision e i, mergeFields_channel e i⟩

/-- C5 witness: the amended adoption theorem at the header-scan/Conan pair. -/
theorem c5_version_purl_adoption_witness :
    (mergeFields zlibHeaderDet zlibConanDet).version = zlibConanDet.version ∧
      (mergeFields zlibHeaderDet zlibConanDet).purl = zlibConanDet.purl ∧
      (mergeFields zlibHeaderDet zlibConanDet).revision = zlibHeaderDet.revision ∧
      (mergeFields zlibHeaderDet zlibConanDet).channel = zlibHeaderDet.channel :=
  c5_version_purl_adoption zlibHeaderDet zlibConanDet (by decide) (by decide)

/-! ## Claim C7: determinism of the engine -/

/-- C7 counterexample: the merged result depends on the order in which
strategy results are drained from the result channel.  Two equal-rank sources
(`conan` and `vcpkg`, both rank 10) reporting different known versions of
`zlib` produce different merged components depending on arrival order, so two
runs of the engine on the same directory need not be identical: goroutine
scheduling fixes no order on the channel. -/
theorem c7_determinism_counterexample :
    sourceRank zlibConanDet.detectionSource =
        sourceRank zlibVcpkgDet.detectionSource ∧
      mergedComponents [zlibConanDet, zlibVcpkgDet] ≠
        mergedComponents [zlibVcpkgDet, zlibConanDet] := by
  decide

/-- C7 (amended): the engine is deterministic only up to the arrival order of
strategy results (besides timestamp and serial number): the set of merged
component keys is invariant under permuting the arrival order, while the
per-component fields may differ when equal-rank sources conflict. -/
theorem c7_keyset_order_invariant (l1 l2 : List Component) (h : l1.Perm l2)
    (k : String) :
    (lookupKey (mergeList l1) k).isSome = (lookupKey (mergeList l2) k).isSome := by
  have h1 : ∀ l : List Component,
      ((lookupKey (mergeList l) k).isSome = true ↔
        ∃ c ∈ l, normalizeName c.name = k) := by
    intro l
    rw [lookupKey_mergeList]
    cases hf : l.filter (fun c => normalizeName c.name = k) with
    | nil =>
      rw [List.filter_eq_nil_iff] at hf
      simp only [foldMergeOpt, Option.isSome_none, Bool.false_eq_true, false_iff]
      rintro ⟨c, hc, hck⟩
      exact absurd (decide_eq_true hck) (hf c hc)
    | cons c0 cs =>
      simp only [foldMergeOpt, Option.isSome_some, true_iff]
      have hc0 : c0 ∈ l.filter (fun c => normalizeName c.name = k) := by
        rw [hf]
        exact List.mem_cons_self _ _
      have hm := List.mem_filter.mp hc0
      exact ⟨c0, hm.1, of_decide_eq_true hm.2⟩
  by_cases hx : ∃ c ∈ l1, normalizeName c.name = k
  · rw [(h1 l1).mpr hx, (h1 l2).mpr ?_]
    obtain ⟨c, hc, hck⟩ := hx
    exact ⟨c, h.subset hc, hck⟩
  · have b1 : (lookupKey (mergeList l1) k).isSome = false := by
      cases hb : (lookupKey (mergeList l1) k).isSome with
      | false => rfl
      | true => exact absurd ((h1 l1).mp hb) hx
    have b2 : (lookupKey (mergeList l2) k).isSome = false := by
      cases hb : (lookupKey (mergeList l2) k).isSome with
      | false => rfl
      | true =>
        obtain ⟨c, hc, hck⟩ := (h1 l2).mp hb
        exact absurd ⟨c, h.symm.subset hc, hck⟩ hx
    rw [b1, b2]

/-- C7 witness: the key-set invariance applied to the swapped conan/vcpkg
arrival orders. -/
theorem c7_keyset_order_invariant_witness :
    (lookupKey (mergeList [zlibConanDet, zlibVcpkgDet]) "zlib").isSome =
      (lookupKey (mergeList [zlibVcpkgDet, zlibConanDet]) "zlib").isSome :=
  c7_keyset_order_invariant [zlibConanDet, zlibVcpkgDet]
    [zlibVcpkgDet, zlibConanDet] (by decide) "zlib"

/-! ## Claim C9: a known version is never overwritten by a merge -/

/-- C9: once a component's version is not `unknown`, no sequence of further
merges changes its version or PURL (regardless of the incoming ranks), and a
version change in a single merge can only happen when the existing version
was `unknown` and the incoming one was not. -/
theorem c9_version_immutable_once_known :
    (∀ (e : Component) (cs : List Component), e.version ≠ "unknown" →
        (cs.foldl mergeFields e).version = e.version ∧
          (cs.foldl mergeFields e).purl = e.purl) ∧
      (∀ e i : Component, (mergeFields e i).version ≠ e.version →
        e.version = "unknown" ∧ i.version ≠ "unknown") :=
  ⟨fun e cs h => foldl_mergeFields_version_known cs e h,
    mergeFields_version_change⟩

/-- C9 witness: a higher-ranked conan-graph detection (rank 11) does not
overwrite the known Conan version. -/
theorem c9_version_immutable_once_known_witness :
    ([zlibGraphDet].foldl mergeFields zlibConanDet).version =
        zlibConanDet.version ∧
      ([zlibGraphDet].foldl mergeFields zlibConanDet).purl =
        zlibConanDet.purl :=
  c9_version_immutable_once_known.1 zlibConanDet [zlibGraphDet] (by decide)

/-! ## Fingerprint database (`internal/fingerprints/db.go`) -/

/-- LibraryFingerprint describes how to recognise a known C++ library. -/
structure LibraryFingerprint where
  name : String
  pathSegments : List String := []
  headers : List String := []
  purl : String := ""
  description : String := ""
deriving Repr, DecidableEq

/-- KnownLibraries, the built-in fingerprint table of db.go, in order. -/
def knownLibraries : List LibraryFingerprint :=
  [⟨"boost", ["boost"], ["boost/"], "pkg:conan/boost", "Boost C++ Libraries"⟩,
   ⟨"openssl", ["openssl", "ssl", "crypto"], ["openssl/", "ssl.h", "crypto.h"],
     "pkg:conan/openssl", "OpenSSL cryptography library"⟩,
   ⟨"zlib", ["zlib"], ["zlib.h"], "pkg:conan/zlib", "zlib compression library"⟩,
   ⟨"libcurl", ["curl", "libcurl"], ["curl/curl.h", "curl/"], "pkg:conan/libcurl",
     "libcurl - the multiprotocol file transfer library"⟩,
   ⟨"sqlite3", ["sqlite", "sqlite3"], ["sqlite3.h"], "pkg:conan/sqlite3",
     "SQLite embedded database"⟩,
   ⟨"googletest", ["gtest", "googletest", "googlemock"],
     ["gtest/gtest.h", "gmock/gmock.h"], "pkg:github/google/googletest",
     "Google Test C++ testing framework"⟩,
   ⟨"nlohmann-json", ["nlohmann"], ["nlohmann/json.hpp", "nlohmann/"],
     "pkg:github/nlohmann/json", "JSON for Modern C++"⟩,
   ⟨"eigen", ["eigen", "Eigen"], ["Eigen/", "eigen3/"], "pkg:conan/eigen",
     "Eigen linear algebra library"⟩,
   ⟨"protobuf", ["protobuf", "google/protobuf"], ["google/protobuf/", "protobuf/"],
     "pkg:conan/protobuf", "Google Protocol Buffers"⟩,
   ⟨"grpc", ["grpc", "grpcpp"], ["grpc/grpc.h", "grpcpp/"], "pkg:conan/grpc",
     "gRPC remote procedure call framework"⟩,
   ⟨"abseil", ["absl", "abseil"], ["absl/"], "pkg:conan/abseil",
     "Abseil C++ Common Libraries"⟩,
   ⟨"fmt", ["fmt"], ["fmt/format.h", "fmt/core.h", "fmt/"], "pkg:conan/fmt",
     "\x7bfmt\x7d formatting library"⟩,
   ⟨"spdlog", ["spdlog"], ["spdlog/spdlog.h", "spdlog/"], "pkg:conan/spdlog",
     "Fast C++ logging library"⟩,
   ⟨"catch2", ["catch2", "Catch2"], ["catch2/catch.hpp", "catch2/catch_all.hpp"],
     "pkg:conan/catch2", "Catch2 C++ test framework"⟩,
   ⟨"libuv", ["libuv", "uv"], ["uv.h", "uv/"], "pkg:conan/libuv",
     "libuv asynchronous I/O library"⟩,
   ⟨"libpng", ["libpng", "png"], ["png.h", "libpng/"], "pkg:conan/libpng",
     "libpng PNG image library"⟩,
   ⟨"libjpeg", ["libjpeg", "jpeg"], ["jpeglib.h", "jerror.h"], "pkg:conan/libjpeg",
     "libjpeg JPEG image library"⟩,
   ⟨"opencv", ["opencv", "opencv2"], ["opencv2/", "opencv/"], "pkg:conan/opencv",
     "OpenCV computer vision library"⟩,
   ⟨"poco", ["Poco", "poco"], ["Poco/"], "pkg:conan/poco", "POCO C++ Libraries"⟩,
   ⟨"qt", ["Qt5", "Qt6", "QtCore", "QtWidgets"],
     ["QtCore/", "QtWidgets/", "QtGui/", "QObject"], "pkg:conan/qt",
     "Qt application framework"⟩,
   ⟨"wxwidgets", ["wx", "wxWidgets"], ["wx/wx.h", "wx/"], "pkg:conan/wxwidgets",
     "wxWidgets cross-platform GUI library"⟩,
   ⟨"tbb", ["tbb", "oneapi/tbb"], ["tbb/tbb.h", "tbb/", "oneapi/tbb/"],
     "pkg:conan/onetbb", "Intel Threading Building Blocks"⟩,
   ⟨"glfw", ["glfw", "GLFW"], ["GLFW/glfw3.h"], "pkg:conan/glfw",
     "GLFW OpenGL windowing library"⟩,
   ⟨"glm", ["glm"], ["glm/glm.hpp", "glm/"], "pkg:conan/glm",
     "OpenGL Mathematics library"⟩,
   ⟨"rapidjson", ["rapidjson"], ["rapidjson/document.h", "rapidjson/"],
     "pkg:conan/rapidjson", "RapidJSON fast JSON parser/generator"⟩,
   ⟨"yaml-cpp", ["yaml-cpp", "yaml_cpp"], ["yaml-cpp/yaml.h"], "pkg:conan/yaml-cpp",
     "yaml-cpp YAML parser"⟩,
   ⟨"pugixml", ["pugixml"], ["pugixml.hpp"], "pkg:conan/pugixml",
     "pugixml XML parser"⟩,
   ⟨"tinyxml2", ["tinyxml2"], ["tinyxml2.h"], "pkg:conan/tinyxml2",
     "TinyXML-2 XML parser"⟩,
   ⟨"zstd", ["zstd"], ["zstd.h"], "pkg:conan/zstd",
     "Zstandard compression library"⟩,
   ⟨"lz4", ["lz4"], ["lz4.h", "lz4frame.h"], "pkg:conan/lz4",
     "LZ4 compression library"⟩,
   ⟨"flatbuffers", ["flatbuffers"], ["flatbuffers/flatbuffers.h", "flatbuffers/"],
     "pkg:conan/flatbuffers", "FlatBuffers serialization library"⟩,
   ⟨"msgpack", ["msgpack"], ["msgpack.hpp", "msgpack/"], "pkg:conan/msgpack-cxx",
     "MessagePack serialization library"⟩,
   ⟨"asio", ["asio"], ["asio.hpp", "asio/"], "pkg:conan/asio",
     "Asio C++ asynchronous networking library"⟩,
   ⟨"websocketpp", ["websocketpp"], ["websocketpp/"], "pkg:conan/websocketpp",
     "WebSocket++ library"⟩,
   ⟨"benchmark", ["benchmark"], ["benchmark/benchmark.h"],
     "pkg:github/google/benchmark", "Google Benchmark microbenchmark library"⟩,
   ⟨"cereal", ["cereal"], ["cereal/cereal.hpp", "cereal/"], "pkg:conan/cereal",
     "cereal C++ serialization library"⟩,
   ⟨"cxxopts", ["cxxopts"], ["cxxopts.hpp"], "pkg:conan/cxxopts",
     "cxxopts command-line option parser"⟩,
   ⟨"CLI11", ["CLI11", "CLI"], ["CLI/CLI.hpp"], "pkg:conan/cli11",
     "CLI11 command-line parser"⟩,
   ⟨"re2", ["re2"], ["re2/re2.h"], "pkg:conan/re2",
     "RE2 regular expression library"⟩,
   ⟨"leveldb", ["leveldb"], ["leveldb/db.h", "leveldb/"], "pkg:conan/leveldb",
     "LevelDB key-value storage"⟩,
   ⟨"rocksdb", ["rocksdb"], ["rocksdb/db.h", "rocksdb/"], "pkg:conan/rocksdb",
     "RocksDB embedded database"⟩,
   ⟨"libsodium", ["sodium", "libsodium"], ["sodium.h", "sodium/"],
     "pkg:conan/libsodium", "libsodium cryptography library"⟩,
   ⟨"mbedtls", ["mbedtls"], ["mbedtls/ssl.h", "mbedtls/"], "pkg:conan/mbedtls",
     "Mbed TLS cryptography library"⟩,
   ⟨"libevent", ["libevent", "event"], ["event2/event.h", "event.h"],
     "pkg:conan/libevent", "libevent event notification library"⟩,
   ⟨"folly", ["folly"], ["folly/"], "pkg:conan/folly",
     "Facebook Open-source Library"⟩,
   ⟨"arrow", ["arrow"], ["arrow/api.h", "arrow/"], "pkg:conan/arrow",
     "Apache Arrow columnar data format"⟩]

/-- The keys of the `stdlibHeaders` map in db.go: standard C, POSIX, Windows
and C++ headers to exclude. -/
def stdlibHeaders : List String :=
  ["assert.h", "complex.h", "ctype.h", "errno.h",
   "fenv.h", "float.h", "inttypes.h", "iso646.h",
   "limits.h", "locale.h", "math.h", "setjmp.h",
   "signal.h", "stdalign.h", "stdarg.h", "stdatomic.h",
   "stdbool.h", "stddef.h", "stdint.h", "stdio.h",
   "stdlib.h", "stdnoreturn.h", "string.h", "tgmath.h",
   "threads.h", "time.h", "uchar.h", "wchar.h",
   "wctype.h",
   "unistd.h", "fcntl.h", "sys/types.h", "sys/stat.h",
   "sys/socket.h", "sys/wait.h", "sys/mman.h",
   "sys/time.h", "sys/ioctl.h", "sys/select.h",
   "netinet/in.h", "arpa/inet.h", "netdb.h",
   "pthread.h", "semaphore.h", "dirent.h",
   "dlfcn.h", "poll.h", "termios.h",
   "windows.h", "winsock2.h", "ws2tcpip.h",
   "winbase.h", "windef.h", "winnt.h",
   "shellapi.h", "shlobj.h", "commctrl.h",
   "algorithm", "any", "array", "atomic",
   "barrier", "bit", "bitset", "cassert",
   "cctype", "cerrno", "cfenv", "cfloat",
   "charconv", "chrono", "cinttypes", "climits",
   "clocale", "cmath", "codecvt", "compare",
   "complex", "concepts", "condition_variable",
   "coroutine", "csetjmp", "csignal", "cstdarg",
   "cstddef", "cstdint", "cstdio", "cstdlib",
   "cstring", "ctime", "cuchar", "cwchar",
   "cwctype", "deque", "exception", "execution",
   "expected", "filesystem", "format", "forward_list",
   "fstream", "functional", "future", "generator",
   "initializer_list", "iomanip", "ios", "iosfwd",
   "iostream", "istream", "iterator", "latch",
   "limits", "list", "locale", "map",
   "memory", "memory_resource", "mutex", "new",
   "numbers", "numeric", "optional", "ostream",
   "print", "queue", "random", "ranges",
   "ratio", "regex", "scoped_allocator", "semaphore",
   "set", "shared_mutex", "source_location", "span",
   "spanstream", "sstream", "stack", "stacktrace",
   "stdexcept", "stdfloat", "stop_token", "streambuf",
   "string", "string_view", "strstream", "syncstream",
   "system_error", "thread", "tuple", "type_traits",
   "typeindex", "typeinfo", "unordered_map",
   "unordered_set", "utility", "valarray", "variant",
   "vector", "version"]

/-- Go `IsStdlibHeader`: trim whitespace, then look the include name up in the
stdlib header set. -/
def isStdlibHeader (inc : String) : Bool :=
  stdlibHeaders.contains (goTrimSpace inc)

/-- Go `MatchLibrary`: first fingerprint whose path segments or headers are a
(case-insensitive) substring match of the query; segments are checked before
headers within each fingerprint, and table order is the tie-break. -/
def matchLibrary (s : String) : Option LibraryFingerprint :=
  let lower := goToLower s
  knownLibraries.find? (fun fp =>
    fp.pathSegments.any (fun seg => goContains lower (goToLower seg)) ||
      fp.headers.any (fun hdr => goContains lower (goToLower hdr)))

/-! ## Header-scan strategy (`HeadersStrategy.scanSourceFile`) -/

/-- Go `appendUnique` in the strategies package (identical to the scanner's
`appendUniqueStr`). -/
def appendUnique (slice : List String) (s : String) : List String :=
  if slice.contains s then slice else slice ++ [s]

/-- The regexp `reIncludeDirective`, i.e.
`^\s*#\s*include\s*([<"])([^>"]+)[>"]`, as a parser: returns the bracket
character and the include text when the line matches.  The run `[^>"]+` is
maximal (greedy matching cannot backtrack here since shortening the run still
leaves a character outside `[>"]` at the closing position), and the closing
character may be either `>` or `"` independently of the opener. -/
def parseIncludeLine (line : String) : Option (Char × String) :=
  let l := line.data.dropWhile goIsSpaceRe
  match l with
  | '#' :: l1 =>
    let l2 := l1.dropWhile goIsSpaceRe
    if ("include".data).isPrefixOf l2 then
      let l3 := (l2.drop 7).dropWhile goIsSpaceRe
      match l3 with
      | b :: l4 =>
        if b = '<' || b = '"' then
          let body := l4.takeWhile (fun c => c ≠ '>' ∧ c ≠ '"')
          if body = [] then none
          else
            match l4.drop body.length with
            | [] => none
            | _ :: _ => some (b, ⟨body⟩)
        else none
      | [] => none
    else none
  | _ => none

/-- One iteration of the scanner loop in Go `scanSourceFile`
(conan_graph.go part: lines 431-477): parse the include directive, apply the
quoted-relative skip, the stdlib-allowlist skip and the
resolves-inside-project skip (the filesystem lookup `resolvedInsideProject`
is abstracted as the oracle `resolvedInside`), then record evidence on the
fingerprint-matched component. -/
def headerScanStep (resolvedInside : String → Bool)
    (seen : List (String × Component)) (line : String) :
    List (String × Component) :=
  match parseIncludeLine line with
  | none => seen
  | some (bracket, inc) =>
    if bracket = '"' && !(goIsAbs inc) then seen
    else if isStdlibHeader inc then seen
    else if resolvedInside inc then seen
    else
      match matchLibrary inc with
      | none => seen
      | some fp =>
        match lookupKey seen fp.name with
        | some c =>
          updateKey seen fp.name
            { c with includePaths := appendUnique c.includePaths inc }
        | none =>
          let c : Component :=
            { name := fp.name, version := "unknown", purl := fp.purl,
              detectionSource := "header-scan", description := fp.description }
          seen ++ [(fp.name, { c with includePaths := appendUnique c.includePaths inc })]

/-- Go `scanSourceFile` over the lines of one source file: fold the per-line
step over an initially empty `seen` map and emit the collected components. -/
def scanSourceFile (resolvedInside : String → Bool) (lines : List String) :
    List Component :=
  (lines.foldl (headerScanStep resolvedInside) []).map Prod.snd

/-- Source lines of scenario 1 of the spec (stdlib allowlist). -/
def scenario1Lines : List String :=
  ["#include <vector>",
   "#include <string>",
   "#include <boost/algorithm/string.hpp>",
   "#include \"internal_utils.h\""]

/-- The filesystem oracle of scenario 1: `internal_utils.h` is present in the
project, nothing else resolves inside it. -/
def scenario1Resolve (inc : String) : Bool :=
  inc = "internal_utils.h"

theorem mem_appendUnique (xs : List String) (s x : String)
    (h : x ∈ appendUnique xs s) : x ∈ xs ∨ x = s := by
  unfold appendUnique at h
  split at h
  · exact Or.inl h
  · rcases List.mem_append.mp h with h' | h'
    · exact Or.inl h'
    · exact Or.inr (List.mem_singleton.mp h')

/-- Invariant preserved by `headerScanStep`: no recorded include path is a
stdlib header. -/
theorem headerScanStep_no_stdlib (r : String → Bool)
    (seen : List (String × Component)) (line : String)
    (hseen : ∀ p ∈ seen, ∀ inc ∈ p.2.includePaths, isStdlibHeader inc = false) :
    ∀ p ∈ headerScanStep r seen line, ∀ inc ∈ p.2.includePaths,
      isStdlibHeader inc = false := by
  unfold headerScanStep
  cases hp : parseIncludeLine line with
  | none => exact hseen
  | some bi =>
    obtain ⟨bracket, inc0⟩ := bi
    simp only
    split
    · exact hseen
    · split
      · exact hseen
      · split
        · exact hseen
        · rename_i hq hstd hres
          cases hm : matchLibrary inc0 with
          | none => exact hseen
          | some fp =>
            simp only
            cases hl : lookupKey seen fp.name with
            | some c =>
              intro p hpmem inc hinc
              rcases mem_updateKey _ _ _ _ hpmem with h' | h'
              · exact hseen p h' inc hinc
              · subst h'
                simp only at hinc
                rcases mem_appendUnique _ _ _ hinc with h2 | h2
                · exact hseen (fp.name, c) (lookupKey_mem _ _ _ hl) inc h2
                · subst h2
                  simpa using hstd
            | none =>
              intro p hpmem inc hinc
              rcases List.mem_append.mp hpmem with h' | h'
              · exact hseen p h' inc hinc
              · rw [List.mem_singleton] at h'
                subst h'
                simp only at hinc
                rcases mem_appendUnique _ _ _ hinc with h2 | h2
                · simp at h2
                · subst h2
                  simpa using hstd

/-- C8: the header-scan path never reports a standard-library include: every
include recorded as evidence on a header-scan component fails
`IsStdlibHeader` (the allowlist filter runs before fingerprint matching), and
on scenario 1 (`<vector>`, `<string>`, `<boost/algorithm/string.hpp>`,
`"internal_utils.h"` with `internal_utils.h` present in the project) the
strategy reports exactly one component, `boost`. -/
theorem c8_stdlib_headers_filtered :
    (∀ (r : String → Bool) (lines : List String),
        ∀ c ∈ scanSourceFile r lines, ∀ inc ∈ c.includePaths,
          isStdlibHeader inc = false) ∧
      (scanSourceFile scenario1Resolve scenario1Lines).map
          (fun c => c.name) = ["boost"] := by
  constructor
  · intro r lines c hc inc hinc
    have hinv : ∀ p ∈ lines.foldl (headerScanStep r) [],
        ∀ i ∈ p.2.includePaths, isStdlibHeader i = false := by
      have base : ∀ p ∈ ([] : List (String × Component)),
          ∀ i ∈ p.2.includePaths, isStdlibHeader i = false := by
        intro p hp
        simp at hp
      clear hc
      generalize ([] : List (String × Component)) = seen at base ⊢
      induction lines generalizing seen with
      | nil => exact base
      | cons l ls ih =>
        exact ih _ (headerScanStep_no_stdlib r seen l base)
    obtain ⟨p, hp, hpc⟩ := List.mem_map.mp hc
    subst hpc
    exact hinv p hp inc hinc
  · decide

/-- C8 witness: the universal part applied to the boost component of
scenario 1 and its recorded include. -/
theorem c8_stdlib_headers_filtered_witness :
    isStdlibHeader "boost/algorithm/string.hpp" = false :=
  c8_stdlib_headers_filtered.1 scenario1Resolve scenario1Lines
    { name := "boost", version := "unknown", purl := "pkg:conan/boost",
      description := "Boost C++ Libraries", detectionSource := "header-scan",
      includePaths := ["boost/algorithm/string.hpp"] }
    (by decide) "boost/algorithm/string.hpp" (by decide)

/-- C10: every quoted include whose path is not absolute is skipped before
the existence checks and before fingerprint matching, so it contributes
nothing regardless of whether it resolves inside the project; in particular a
quoted relative include matching the boost fingerprint produces no component
under any filesystem oracle. -/
theorem c10_quoted_relative_skipped :
    (∀ (r : String → Bool) (seen : List (String × Component))
        (line : String) (inc : String),
        parseIncludeLine line = some ('"', inc) → goIsAbs inc = false →
          headerScanStep r seen line = seen) ∧
      (∀ r : String → Bool,
        scanSourceFile r ["#include \"boost/algorithm/string.hpp\""] = []) := by
  have hstep : ∀ (r : String → Bool) (seen : List (String × Component))
      (line : String) (inc : String),
      parseIncludeLine line = some ('"', inc) → goIsAbs inc = false →
        headerScanStep r seen line = seen := by
    intro r seen line inc hp habs
    unfold headerScanStep
    rw [hp]
    simp [habs]
  refine ⟨hstep, ?_⟩
  intro r
  unfold scanSourceFile
  rw [List.foldl_cons, List.foldl_nil,
    hstep r [] "#include \"boost/algorithm/string.hpp\""
      "boost/algorithm/string.hpp" (by decide) (by decide)]
  rfl

/-- C10 witness: the skip rule applied to the concrete quoted relative boost
include. -/
theorem c10_quoted_relative_skipped_witness :
    headerScanStep scenario1Resolve [] "#include \"boost/algorithm/string.hpp\"" = [] :=
  c10_quoted_relative_skipped.1 scenario1Resolve []
    "#include \"boost/algorithm/string.hpp\"" "boost/algorithm/string.hpp"
    (by decide) (by decide)

/-! ## Version extraction (`internal/strategies/compilecommands.go`) -/

/-- Greedy `\d+` at the head of a character list. -/
def takeDigits (l : List Char) : List Char :=
  l.takeWhile Char.isDigit

/-- The regexp `reVersionInPath`, i.e. `[-_](\d+)[._](\d+)(?:[._](\d+))?`,
matched at the head of the list: returns the three captured groups and the
remainder.  Greedy `\d+` runs cannot backtrack (shortening one leaves a digit
where a separator is required), and the optional third group is taken exactly
when a separator followed by a digit run is present. -/
def matchVersionAt : List Char → Option (String × String × Option String × List Char)
  | [] => none
  | c :: rest =>
    if c = '-' || c = '_' then
      let d1 := takeDigits rest
      if d1 = [] then none
      else
        match rest.drop d1.length with
        | [] => none
        | s1 :: rest2 =>
          if s1 = '.' || s1 = '_' then
            let d2 := takeDigits rest2
            if d2 = [] then none
            else
              let rest3 := rest2.drop d2.length
              match rest3 with
              | [] => some (⟨d1⟩, ⟨d2⟩, none, [])
              | s2 :: rest4 =>
                if s2 = '.' || s2 = '_' then
                  let d3 := takeDigits rest4
                  if d3 = [] then some (⟨d1⟩, ⟨d2⟩, none, rest3)
                  else some (⟨d1⟩, ⟨d2⟩, some ⟨d3⟩, rest4.drop d3.length)
                else some (⟨d1⟩, ⟨d2⟩, none, rest3)
          else none
    else none

/-- Leftmost match of `reVersionInPath` (Go `FindStringSubmatch`): try each
start position from the left. -/
def findVersionMatch : List Char → Option (String × String × Option String)
  | [] => none
  | c :: rest =>
    match matchVersionAt (c :: rest) with
    | some (d1, d2, d3, _) => some (d1, d2, d3)
    | none => findVersionMatch rest

/-- Assembly of the version string from the regexp groups:
`m[1]+"."+m[2]` plus `"."+m[3]` when the third group is nonempty. -/
def versionString (d1 d2 : String) (d3 : Option String) : String :=
  match d3 with
  | some d => d1 ++ "." ++ d2 ++ "." ++ d
  | none => d1 ++ "." ++ d2

/-- Go `strings.Split` on a single-character separator. -/
def splitChar : List Char → Char → List (List Char)
  | [], _ => [[]]
  | c :: rest, sep =>
    let r := splitChar rest sep
    if c = sep then [] :: r
    else
      match r with
      | h :: t => (c :: h) :: t
      | [] => [[c]]

/-- Go `extractVersionFromPath`: split the slash-normalised path on `/` and
return the version assembled from the first segment matching
`reVersionInPath`. -/
def extractVersionFromPath (path : String) : String :=
  let parts := splitChar (goToSlash path).data '/'
  match parts.findSome? (fun part => findVersionMatch part) with
  | some (d1, d2, d3) => versionString d1 d2 d3
  | none => ""

/-- The regexp `reVersionInLibName`, i.e.
`[-_](\d+)[._](\d+)(?:[._](\d+))?(?:\.lib|\.a)?$`, matched at the head of the
list: the end anchor forces the remainder after the optional extension to be
empty, and greedy matching prefers the third group when the anchor can still
be satisfied. -/
def matchLibVersionAt : List Char → Option (String × String × Option String)
  | [] => none
  | c :: rest =>
    if c = '-' || c = '_' then
      let d1 := takeDigits rest
      if d1 = [] then none
      else
        match rest.drop d1.length with
        | [] => none
        | s1 :: rest2 =>
          if s1 = '.' || s1 = '_' then
            let d2 := takeDigits rest2
            if d2 = [] then none
            else
              let rest3 := rest2.drop d2.length
              let tailOk := fun (r : List Char) =>
                r = [] || r = ".lib".data || r = ".a".data
              match rest3 with
              | [] => if tailOk rest3 then some (⟨d1⟩, ⟨d2⟩, none) else none
              | s2 :: rest4 =>
                if s2 = '.' || s2 = '_' then
                  let d3 := takeDigits rest4
                  if d3 ≠ [] ∧ tailOk (rest4.drop d3.length) = true then
                    some (⟨d1⟩, ⟨d2⟩, some ⟨d3⟩)
                  else if tailOk rest3 then some (⟨d1⟩, ⟨d2⟩, none) else none
                else if tailOk rest3 then some (⟨d1⟩, ⟨d2⟩, none) else none
          else none
    else none

/-- Leftmost match of `reVersionInLibName`. -/
def findLibVersionMatch : List Char → Option (String × String × Option String)
  | [] => none
  | c :: rest =>
    match matchLibVersionAt (c :: rest) with
    | some r => some r
    | none => findLibVersionMatch rest

/-- Go `extractVersionFromLibName`. -/
def extractVersionFromLibName (lib : String) : String :=
  match findLibVersionMatch lib.data with
  | some (d1, d2, d3) => versionString d1 d2 d3
  | none => ""

/-! ## compile-commands component construction -/

/-- The shared version-inference update inside `addComponent`:
`if v := extract...; v != "" && c.Version == "unknown" { c.Version = v;
c.PURL = fp.PURL + "@" + v }`. -/
def inferVersion (fp : LibraryFingerprint) (c1 : Component) (v : String) :
    Component :=
  if v ≠ "" ∧ c1.version = "unknown" then
    { c1 with version := v, purl := fp.purl ++ "@" ++ v }
  else c1

/-- The fetch-or-create step at the top of `addComponent`. -/
def addComponentBase (source : String) (seen : List (String × Component))
    (fp : LibraryFingerprint) : Component :=
  match lookupKey seen fp.name with
  | some c0 => c0
  | none =>
    { name := fp.name, version := "unknown", purl := fp.purl,
      detectionSource := source, description := fp.description }

/-- The `if incPath != ""` block of `addComponent`: record the include path
and try to infer a version from it. -/
def addComponentInc (fp : LibraryFingerprint) (incPath : String)
    (c : Component) : Component :=
  if incPath ≠ "" then
    inferVersion fp { c with includePaths := appendUnique c.includePaths incPath }
      (extractVersionFromPath incPath)
  else c

/-- The `if lib != ""` block of `addComponent`: record the link library and
try to infer a version from its name. -/
def addComponentLib (fp : LibraryFingerprint) (lib : String)
    (c : Component) : Component :=
  if lib ≠ "" then
    inferVersion fp { c with linkLibraries := appendUnique c.linkLibraries lib }
      (extractVersionFromLibName lib)
  else c

/-- The component value produced by one `addComponent` call: fetch or create
the component for the fingerprint, record the evidence, and infer a version
from the path or the library name when the version is still unknown. -/
def addComponentBody (source : String) (seen : List (String × Component))
    (fp : LibraryFingerprint) (incPath lib : String) : Component :=
  addComponentLib fp lib (addComponentInc fp incPath (addComponentBase source seen fp))

/-- Go `addComponent` closure inside `buildComponentsFromPaths`
(compilecommands.go lines 184-211): the Go code mutates the map entry in
place; here the updated component value (`addComponentBody`) is stored back
under the fingerprint name, as a fresh entry when it was absent. -/
def addComponent (source : String) (seen : List (String × Component))
    (fp : LibraryFingerprint) (incPath lib : String) :
    List (String × Component) :=
  let c := addComponentBody source seen fp incPath lib
  match lookupKey seen fp.name with
  | some _ => updateKey seen fp.name c
  | none => seen ++ [(fp.name, c)]

/-- Go `buildComponentsFromPaths`: map external include paths and link
libraries through the fingerprint table and collect components. -/
def buildComponentsFromPaths (includes libs : List String) (source : String) :
    List Component :=
  let seen := includes.foldl (fun seen incPath =>
    match matchLibrary incPath with
    | some fp => addComponent source seen fp incPath ""
    | none => seen) []
  let seen := libs.foldl (fun seen lib =>
    match matchLibrary lib with
    | some fp => addComponent source seen fp "" lib
    | none => seen) seen
  seen.map Prod.snd

/-- Go `makeConanComponentFull` (conan.go lines 328-351): build the PURL from
the fingerprint template (or `pkg:conan/<name>`) plus `@version`, then append
the `?channel=` qualifier unless the channel is empty or the `_/_`
placeholder. -/
def makeConanComponentFull (name version channel revision source : String) :
    Component :=
  let fp := matchLibrary name
  let purl0 :=
    match fp with
    | some f => f.purl ++ "@" ++ version
    | none => "pkg:conan/" ++ name ++ "@" ++ version
  let desc :=
    match fp with
    | some f => f.description
    | none => ""
  let purl :=
    if channel ≠ "" ∧ channel ≠ "_/_" ∧ channel ≠ "@_/_" then
      purl0 ++ "?channel=" ++ goReplaceAllCharStr channel '/' "%2F"
    else purl0
  { name := name, version := version, purl := purl, revision := revision,
    channel := channel, detectionSource := source, description := desc }

/-! ## PURL/version consistency -/

/-- Version segment of a PURL: the characters after the first `@`, up to the
first following `?` (the qualifier separator). -/
def purlVersionSegment (purl : String) : String :=
  ⟨((purl.data.dropWhile (· ≠ '@')).drop 1).takeWhile (· ≠ '?')⟩

/-- The version stated in the PURL (when the PURL has one) agrees with the
component's version field. -/
def purlAtVersionOk (c : Component) : Bool :=
  !(goContains c.purl "@") || purlVersionSegment c.purl = c.version

/-- The literal reading of the spec's PURL invariant: the PURL is empty, or
ends with `@<version>`, optionally followed by a `?rrev=` or `?channel=`
qualifier. -/
def purlClaimHolds (c : Component) : Bool :=
  c.purl = "" ||
    goEndsWith c.purl ("@" ++ c.version) ||
    (List.range (c.purl.data.length + 1)).any (fun i =>
      goEndsWith ⟨c.purl.data.take i⟩ ("@" ++ c.version) &&
        (goStartsWith ⟨c.purl.data.drop i⟩ "?rrev=" ||
          goStartsWith ⟨c.purl.data.drop i⟩ "?channel="))

theorem contains_single_char_false (l : List Char) (a : Char)
    (h : listContainsSub l [a] = false) : ∀ c ∈ l, c ≠ a := by
  induction l with
  | nil => simp
  | cons c t ih =>
    unfold listContainsSub at h
    split at h
    · exact absurd h (by simp)
    · rename_i hnp
      intro x hx
      rcases List.mem_cons.mp hx with hx | hx
      · subst hx
        intro hxa
        subst hxa
        exact hnp (by simp [List.isPrefixOf])
      · exact ih h x hx

theorem dropWhile_append_all (p : Char → Bool) (pre l : List Char)
    (h : ∀ c ∈ pre, p c = true) : (pre ++ l).dropWhile p = l.dropWhile p := by
  induction pre with
  | nil => rfl
  | cons c t ih =>
    have hc := h c (List.mem_cons_self _ _)
    simp only [List.cons_append, List.dropWhile_cons, hc, if_true]
    exact ih (fun x hx => h x (List.mem_cons_of_mem _ hx))

theorem takeWhile_append_all (p : Char → Bool) (v suf : List Char)
    (h : ∀ c ∈ v, p c = true) :
    (v ++ suf).takeWhile p = v ++ suf.takeWhile p := by
  induction v with
  | nil => rfl
  | cons c t ih =>
    have hc := h c (List.mem_cons_self _ _)
    simp only [List.cons_append, List.takeWhile_cons, hc, if_true]
    rw [ih (fun x hx => h x (List.mem_cons_of_mem _ hx))]

/-- Computing the version segment of a PURL of shape
`pre ++ "@" ++ v ++ q` where `pre` has no `@` and `q` is empty or a `?...`
qualifier. -/
theorem purlVersionSegment_append (pre v q : String)
    (hpre : ∀ c ∈ pre.data, c ≠ '@') (hv : ∀ c ∈ v.data, c ≠ '?')
    (hq : q.data = [] ∨ ∃ t, q.data = '?' :: t) :
    purlVersionSegment (pre ++ "@" ++ v ++ q) = v := by
  unfold purlVersionSegment
  have hdata : (pre ++ "@" ++ v ++ q).data = pre.data ++ '@' :: (v.data ++ q.data) := by
    simp [String.data_append]
  rw [hdata]
  rw [dropWhile_append_all _ pre.data _ (by
    intro c hc
    simpa using hpre c hc)]
  have h1 : List.dropWhile (fun c => decide (c ≠ '@')) ('@' :: (v.data ++ q.data)) =
      '@' :: (v.data ++ q.data) := by
    simp [List.dropWhile_cons]
  rw [h1]
  simp only [List.drop_succ_cons, List.drop_zero]
  rw [takeWhile_append_all _ v.data q.data (by
    intro c hc
    simpa using hv c hc)]
  rcases hq with hq | ⟨t, hq⟩ <;> rw [hq]
  · simp
  · simp [List.takeWhile_cons]

theorem takeDigits_isDigit (l : List Char) : ∀ c ∈ takeDigits l, c.isDigit = true :=
  fun _ hc => List.mem_takeWhile_imp hc

theorem matchVersionAt_digits (l : List Char) (d1 d2 : String)
    (d3 : Option String) (rest : List Char)
    (h : matchVersionAt l = some (d1, d2, d3, rest)) :
    (∀ c ∈ d1.data, c.isDigit = true) ∧ (∀ c ∈ d2.data, c.isDigit = true) ∧
      (∀ s, d3 = some s → ∀ c ∈ s.data, c.isDigit = true) := by
  cases l with
  | nil => simp [matchVersionAt] at h
  | cons c rest0 =>
    simp only [matchVersionAt] at h
    repeat' split at h
    all_goals cases h
    all_goals refine ⟨takeDigits_isDigit _, takeDigits_isDigit _, ?_⟩
    all_goals intro s hs
    all_goals cases hs
    all_goals exact takeDigits_isDigit _

theorem matchLibVersionAt_digits (l : List Char) (d1 d2 : String)
    (d3 : Option String)
    (h : matchLibVersionAt l = some (d1, d2, d3)) :
    (∀ c ∈ d1.data, c.isDigit = true) ∧ (∀ c ∈ d2.data, c.isDigit = true) ∧
      (∀ s, d3 = some s → ∀ c ∈ s.data, c.isDigit = true) := by
  cases l with
  | nil => simp [matchLibVersionAt] at h
  | cons c rest0 =>
    simp only [matchLibVersionAt] at h
    repeat' split at h
    all_goals cases h
    all_goals refine ⟨takeDigits_isDigit _, takeDigits_isDigit _, ?_⟩
    all_goals intro s hs
    all_goals cases hs
    all_goals exact takeDigits_isDigit _

theorem findVersionMatch_digits (l : List Char) (d1 d2 : String)
    (d3 : Option String) (h : findVersionMatch l = some (d1, d2, d3)) :
    (∀ c ∈ d1.data, c.isDigit = true) ∧ (∀ c ∈ d2.data, c.isDigit = true) ∧
      (∀ s, d3 = some s → ∀ c ∈ s.data, c.isDigit = true) := by
  induction l with
  | nil => simp [findVersionMatch] at h
  | cons c rest ih =>
    cases hm : matchVersionAt (c :: rest) with
    | some r =>
      obtain ⟨e1, e2, e3, e4⟩ := r
      simp only [findVersionMatch, hm] at h
      cases h
      exact matchVersionAt_digits _ _ _ _ _ hm
    | none =>
      simp only [findVersionMatch, hm] at h
      exact ih h

theorem findLibVersionMatch_digits (l : List Char) (d1 d2 : String)
    (d3 : Option String) (h : findLibVersionMatch l = some (d1, d2, d3)) :
    (∀ c ∈ d1.data, c.isDigit = true) ∧ (∀ c ∈ d2.data, c.isDigit = true) ∧
      (∀ s, d3 = some s → ∀ c ∈ s.data, c.isDigit = true) := by
  induction l with
  | nil => simp [findLibVersionMatch] at h
  | cons c rest ih =>
    cases hm : matchLibVersionAt (c :: rest) with
    | some r =>
      obtain ⟨e1, e2, e3⟩ := r
      simp only [findLibVersionMatch, hm] at h
      cases h
      exact matchLibVersionAt_digits _ _ _ _ hm
    | none =>
      simp only [findLibVersionMatch, hm] at h
      exact ih h

theorem versionString_no_qmark (d1 d2 : String) (d3 : Option String)
    (h1 : ∀ c ∈ d1.data, c.isDigit = true) (h2 : ∀ c ∈ d2.data, c.isDigit = true)
    (h3 : ∀ s, d3 = some s → ∀ c ∈ s.data, c.isDigit = true) :
    ∀ c ∈ (versionString d1 d2 d3).data, c ≠ '?' := by
  have hdigit : ∀ c : Char, c.isDigit = true → c ≠ '?' := by
    intro c hc hq
    subst hq
    simp [Char.isDigit] at hc
  have hdot : ("." : String).data = ['.'] := rfl
  intro c hc
  unfold versionString at hc
  cases d3 with
  | none =>
    simp only [String.data_append, hdot, List.mem_append, List.mem_singleton] at hc
    rcases hc with (hc | hc) | hc
    · exact hdigit c (h1 c hc)
    · subst hc
      decide
    · exact hdigit c (h2 c hc)
  | some s =>
    simp only [String.data_append, hdot, List.mem_append, List.mem_singleton] at hc
    rcases hc with (((hc | hc) | hc) | hc) | hc
    · exact hdigit c (h1 c hc)
    · subst hc
      decide
    · exact hdigit c (h2 c hc)
    · subst hc
      decide
    · exact hdigit c (h3 s rfl c hc)

theorem extractVersionFromPath_no_qmark (p : String) :
    ∀ c ∈ (extractVersionFromPath p).data, c ≠ '?' := by
  cases hf : (splitChar (goToSlash p).data '/').findSome?
      (fun part => findVersionMatch part) with
  | none =>
    have h : extractVersionFromPath p = "" := by
      simp only [extractVersionFromPath]
      rw [hf]
    rw [h]
    simp
  | some r =>
    obtain ⟨d1, d2, d3⟩ := r
    have h : extractVersionFromPath p = versionString d1 d2 d3 := by
      simp only [extractVersionFromPath]
      rw [hf]
    rw [h]
    obtain ⟨part, _, hfm⟩ := List.exists_of_findSome?_eq_some hf
    have hd := findVersionMatch_digits _ _ _ _ hfm
    exact versionString_no_qmark d1 d2 d3 hd.1 hd.2.1 hd.2.2

theorem extractVersionFromLibName_no_qmark (lib : String) :
    ∀ c ∈ (extractVersionFromLibName lib).data, c ≠ '?' := by
  cases hf : findLibVersionMatch lib.data with
  | none =>
    have h : extractVersionFromLibName lib = "" := by
      simp only [extractVersionFromLibName]
      rw [hf]
    rw [h]
    simp
  | some r =>
    obtain ⟨d1, d2, d3⟩ := r
    have h : extractVersionFromLibName lib = versionString d1 d2 d3 := by
      simp only [extractVersionFromLibName]
      rw [hf]
    rw [h]
    have hd := findLibVersionMatch_digits _ _ _ _ hf
    exact versionString_no_qmark d1 d2 d3 hd.1 hd.2.1 hd.2.2

/-- No PURL template in the fingerprint database contains an `@`. -/
theorem knownLibraries_purl_no_at :
    ∀ fp ∈ knownLibraries, goContains fp.purl "@" = false := by
  decide

theorem matchLibrary_mem (s : String) (fp : LibraryFingerprint)
    (h : matchLibrary s = some fp) : fp ∈ knownLibraries := by
  simp only [matchLibrary] at h
  exact List.mem_of_find?_eq_some h

theorem purlAtVersionOk_noAt (c : Component)
    (h : goContains c.purl "@" = false) : purlAtVersionOk c = true := by
  unfold purlAtVersionOk
  rw [h]
  rfl

theorem purlAtVersionOk_fresh (pre v : String)
    (hpre : goContains pre "@" = false) (hv : ∀ c ∈ v.data, c ≠ '?')
    (c0 : Component) :
    purlAtVersionOk { c0 with version := v, purl := pre ++ "@" ++ v } = true := by
  have hpre' : ∀ c ∈ pre.data, c ≠ '@' :=
    contains_single_char_false pre.data '@' hpre
  have hseg : purlVersionSegment (pre ++ "@" ++ v) = v := by
    have h := purlVersionSegment_append pre v "" hpre' hv (Or.inl rfl)
    rwa [String.append_empty] at h
  unfold purlAtVersionOk
  simp [hseg]

theorem inferVersion_purlOk (fp : LibraryFingerprint) (c1 : Component)
    (v : String) (hfp : goContains fp.purl "@" = false)
    (hv : ∀ c ∈ v.data, c ≠ '?') (h1 : purlAtVersionOk c1 = true) :
    purlAtVersionOk (inferVersion fp c1 v) = true := by
  unfold inferVersion
  split
  · exact purlAtVersionOk_fresh fp.purl v hfp hv c1
  · exact h1

theorem addComponentBody_purlOk (source : String)
    (seen : List (String × Component)) (fp : LibraryFingerprint)
    (incPath lib : String) (hfp : fp ∈ knownLibraries)
    (hseen : ∀ p ∈ seen, purlAtVersionOk p.2 = true) :
    purlAtVersionOk (addComponentBody source seen fp incPath lib) = true := by
  have hfpat : goContains fp.purl "@" = false := knownLibraries_purl_no_at fp hfp
  have hc0 : purlAtVersionOk (addComponentBase source seen fp) = true := by
    unfold addComponentBase
    cases hl : lookupKey seen fp.name with
    | some c0 => exact hseen (fp.name, c0) (lookupKey_mem _ _ _ hl)
    | none => exact purlAtVersionOk_noAt _ hfpat
  have h1 : ∀ c : Component, purlAtVersionOk c = true →
      purlAtVersionOk (addComponentInc fp incPath c) = true := by
    intro c hc
    unfold addComponentInc
    split
    · exact inferVersion_purlOk fp _ _ hfpat
        (extractVersionFromPath_no_qmark incPath) hc
    · exact hc
  have h2 : ∀ c : Component, purlAtVersionOk c = true →
      purlAtVersionOk (addComponentLib fp lib c) = true := by
    intro c hc
    unfold addComponentLib
    split
    · exact inferVersion_purlOk fp _ _ hfpat
        (extractVersionFromLibName_no_qmark lib) hc
    · exact hc
  exact h2 _ (h1 _ hc0)

theorem addComponent_purlOk (source : String)
    (seen : List (String × Component)) (fp : LibraryFingerprint)
    (incPath lib : String) (hfp : fp ∈ knownLibraries)
    (hseen : ∀ p ∈ seen, purlAtVersionOk p.2 = true) :
    ∀ p ∈ addComponent source seen fp incPath lib,
      purlAtVersionOk p.2 = true := by
  have hbody := addComponentBody_purlOk source seen fp incPath lib hfp hseen
  intro p hp
  unfold addComponent at hp
  split at hp
  · rcases mem_updateKey _ _ _ _ hp with h' | h'
    · exact hseen p h'
    · rw [h']
      exact hbody
  · rcases List.mem_append.mp hp with h' | h'
    · exact hseen p h'
    · rw [List.mem_singleton.mp h']
      exact hbody

theorem foldl_preserve {α : Type}
    (f : List (String × Component) → α → List (String × Component))
    (P : List (String × Component) → Prop)
    (hstep : ∀ seen x, P seen → P (f seen x)) :
    ∀ (l : List α) (seen : List (String × Component)), P seen → P (l.foldl f seen) := by
  intro l
  induction l with
  | nil => exact fun seen h => h
  | cons x xs ih => exact fun seen h => ih _ (hstep seen x h)

/-- Data-level computation of the version segment: if the PURL characters
decompose as `pre ++ '@' :: (v ++ q)` with no `@` in `pre`, no `?` in `v`,
and `q` empty or starting with `?`, the segment is exactly `v`. -/
theorem purlVersionSegment_data (s : String) (pre v q : List Char)
    (hs : s.data = pre ++ '@' :: (v ++ q)) (hpre : ∀ c ∈ pre, c ≠ '@')
    (hv : ∀ c ∈ v, c ≠ '?') (hq : q = [] ∨ ∃ t, q = '?' :: t) :
    purlVersionSegment s = ⟨v⟩ := by
  unfold purlVersionSegment
  rw [hs]
  rw [dropWhile_append_all _ pre _ (by
    intro c hc
    simpa using hpre c hc)]
  have h1 : List.dropWhile (fun c => decide (c ≠ '@')) ('@' :: (v ++ q)) =
      '@' :: (v ++ q) := by
    simp [List.dropWhile_cons]
  rw [h1]
  simp only [List.drop_succ_cons, List.drop_zero]
  rw [takeWhile_append_all _ v q (by
    intro c hc
    simpa using hv c hc)]
  rcases hq with hq | ⟨t, hq⟩ <;> rw [hq]
  · simp
  · simp [List.takeWhile_cons]

theorem purlAtVersionOk_seg (c : Component)
    (h : purlVersionSegment c.purl = c.version) : purlAtVersionOk c = true := by
  unfold purlAtVersionOk
  simp [h]

/-- C3 counterexample: an external include path that matches a fingerprint
but carries no version pattern yields a component with version `unknown` and
the bare fingerprint PURL `pkg:conan/openssl`, which is neither empty nor
ends with `@unknown` (with or without qualifier) — refuting the claim's
"purl is empty or ends with @version" form. -/
theorem c3_purl_counterexample :
    buildComponentsFromPaths ["/usr/include/openssl"] [] "compile_commands.json" =
        [{ name := "openssl", version := "unknown", purl := "pkg:conan/openssl",
           description := "OpenSSL cryptography library",
           detectionSource := "compile_commands.json",
           includePaths := ["/usr/include/openssl"] }] ∧
      purlClaimHolds
        { name := "openssl", version := "unknown", purl := "pkg:conan/openssl",
          description := "OpenSSL cryptography library",
          detectionSource := "compile_commands.json",
          includePaths := ["/usr/include/openssl"] } = false := by
  decide

/-- C3 (amended): whenever an emitted PURL contains an `@`, the version
segment after the first `@` (up to an optional `?` qualifier) equals the
component's version exactly; a component whose version is `unknown` may
instead carry the bare fingerprint PURL with no `@` at all.  Proved for the
compile-commands component builder and for the Conan component constructor
(whose name/version arguments come from the Conan ref grammar, hence contain
no `@` or `?`). -/
theorem c3_purl_version_consistency :
    (∀ (includes libs : List String) (source : String),
        ∀ c ∈ buildComponentsFromPaths includes libs source,
          purlAtVersionOk c = true) ∧
      (∀ name version channel revision source : String,
        goContains name "@" = false → goContains version "@" = false →
          goContains version "?" = false →
          purlAtVersionOk
            (makeConanComponentFull name version channel revision source) = true) := by
  constructor
  · intro includes libs source c hc
    simp only [buildComponentsFromPaths] at hc
    obtain ⟨p, hp, hpc⟩ := List.mem_map.mp hc
    subst hpc
    have hincStep : ∀ seen incPath,
        (∀ q ∈ seen, purlAtVersionOk q.2 = true) →
        ∀ q ∈ (match matchLibrary incPath with
          | some fp => addComponent source seen fp incPath ""
          | none => seen), purlAtVersionOk q.2 = true := by
      intro seen incPath hs q hq
      split at hq
      · rename_i fp hm
        exact addComponent_purlOk source seen fp incPath ""
          (matchLibrary_mem _ _ hm) hs q hq
      · exact hs q hq
    have hlibStep : ∀ seen lib,
        (∀ q ∈ seen, purlAtVersionOk q.2 = true) →
        ∀ q ∈ (match matchLibrary lib with
          | some fp => addComponent source seen fp "" lib
          | none => seen), purlAtVersionOk q.2 = true := by
      intro seen lib hs q hq
      split at hq
      · rename_i fp hm
        exact addComponent_purlOk source seen fp "" lib
          (matchLibrary_mem _ _ hm) hs q hq
      · exact hs q hq
    have hP := foldl_preserve _ (fun s => ∀ q ∈ s, purlAtVersionOk q.2 = true)
      hlibStep libs _
      (foldl_preserve _ (fun s => ∀ q ∈ s, purlAtVersionOk q.2 = true)
        hincStep includes [] (by
          intro q hq
          simp at hq))
    exact hP p hp
  · intro name version channel revision source hn hv hq
    have hvq : ∀ c ∈ version.data, c ≠ '?' :=
      contains_single_char_false _ _ hq
    cases hm : matchLibrary name with
    | some f =>
      have hfat : ∀ c ∈ f.purl.data, c ≠ '@' :=
        contains_single_char_false _ _
          (knownLibraries_purl_no_at f (matchLibrary_mem _ _ hm))
      simp only [makeConanComponentFull, hm]
      split
      · refine purlAtVersionOk_seg _ ?_
        refine purlVersionSegment_data _ f.purl.data version.data
          ('?' :: ("channel=".data ++ (goReplaceAllCharStr channel '/' "%2F").data))
          ?_ hfat hvq (Or.inr ⟨_, rfl⟩)
        simp [String.data_append]
      · exact purlAtVersionOk_seg _
          (purlVersionSegment_data _ f.purl.data version.data [] (by
            simp [String.data_append]) hfat hvq (Or.inl rfl))
    | none =>
      have hnat : ∀ c ∈ ("pkg:conan/" ++ name).data, c ≠ '@' := by
        rw [String.data_append]
        intro c hc
        rcases List.mem_append.mp hc with h' | h'
        · have hlit : ∀ x ∈ "pkg:conan/".data, x ≠ '@' := by decide
          exact hlit c h'
        · exact contains_single_char_false _ _ hn c h'
      simp only [makeConanComponentFull, hm]
      split
      · refine purlAtVersionOk_seg _ ?_
        refine purlVersionSegment_data _ ("pkg:conan/" ++ name).data version.data
          ('?' :: ("channel=".data ++ (goReplaceAllCharStr channel '/' "%2F").data))
          ?_ hnat hvq (Or.inr ⟨_, rfl⟩)
        simp [String.data_append]
      · exact purlAtVersionOk_seg _
          (purlVersionSegment_data _ ("pkg:conan/" ++ name).data version.data [] (by
            simp [String.data_append]) hnat hvq (Or.inl rfl))

/-- C3 witness: both parts of the amended consistency theorem at concrete
inputs — the boost component extracted from a versioned include path, and the
openssl Conan component with channel and revision. -/
theorem c3_purl_version_consistency_witness :
    purlAtVersionOk
        { name := "boost", version := "1.82.0", purl := "pkg:conan/boost@1.82.0",
          description := "Boost C++ Libraries",
          detectionSource := "compile_commands.json",
          includePaths := ["/usr/local/include/boost_1_82_0"] } = true ∧
      purlAtVersionOk
        (makeConanComponentFull "openssl" "3.1.4" "conan/stable" "deadbeef12"
          "conan") = true :=
  ⟨c3_purl_version_consistency.1 ["/usr/local/include/boost_1_82_0"] []
      "compile_commands.json"
      { name := "boost", version := "1.82.0", purl := "pkg:conan/boost@1.82.0",
        description := "Boost C++ Libraries",
        detectionSource := "compile_commands.json",
        includePaths := ["/usr/local/include/boost_1_82_0"] } (by decide),
    c3_purl_version_consistency.2 "openssl" "3.1.4" "conan/stable" "deadbeef12"
      "conan" (by decide) (by decide) (by decide)⟩

/-! ## Linker-map strategy (`internal/strategies/linkermap.go`) -/

/-- ASCII letter, the regexp class `[A-Za-z]`. -/
def asciiAlpha (c : Char) : Bool :=
  ('A' ≤ c && c ≤ 'Z') || ('a' ≤ c && c ≤ 'z')

/-- Strip trailing `(\.\d+)` groups from a REVERSED character list (used for
the `so(?:\.\d+)*` extension where the `\(` anchor pins the extension to the
end of the run). -/
def stripRevDigitGroups (l : List Char) : List Char :=
  let digits := l.takeWhile Char.isDigit
  match _h : l.drop digits.length with
  | '.' :: rest =>
    if digits.isEmpty then l else stripRevDigitGroups rest
  | _ => l
termination_by l.length
decreasing_by
  have h1 : (l.drop digits.length).length ≤ l.length := by
    rw [List.length_drop]
    omega
  rw [_h] at h1
  simp at h1
  omega

/-- Whether a (lowercased) run ends with `.so` followed by zero or more
`.<digits>` groups, with a nonempty body before the extension. -/
def endsWithSoGroups (lm : List Char) : Bool :=
  let r := stripRevDigitGroups lm.reverse
  "os.".data.isPrefixOf r && decide (4 ≤ r.length)

/-- Whether a run can close the anchored extension
`\.(?:lib|a|so(?:\.\d+)*)` of `reSatisfyChildLine`: since the following `\(`
pins the extension to the end of the run, the run must end with one of the
extensions, preceded by a nonempty body. -/
def extOkChild (m : List Char) : Bool :=
  let lm := m.map Char.toLower
  (".lib".data.isSuffixOf lm && decide (5 ≤ lm.length)) ||
    (".a".data.isSuffixOf lm && decide (3 ≤ lm.length)) ||
    endsWithSoGroups lm

/-- The regexp `reSatisfyChildLine`, i.e.
`(?i)^([A-Za-z]:[\\/][^\s(]+\.(?:lib|a|so(?:\.\d+)*))\(`: drive letter,
colon, slash or backslash, then the maximal `[^\s(]` run which must end in a
library extension and be followed by `(`. -/
def satisfyChildMatch (line : String) : Option String :=
  match line.data with
  | c0 :: ':' :: c2 :: rest =>
    if asciiAlpha c0 && (c2 = '/' || c2 = '\\') then
      let m := rest.takeWhile (fun c => !goIsSpaceRe c && c ≠ '(')
      match rest.drop m.length with
      | '(' :: _ => if extOkChild m then some ⟨c0 :: ':' :: c2 :: m⟩ else none
      | _ => none
    else none
  | _ => none

/-- The regexp `reSatisfyRef` (single-line satisfy format), i.e.
`^\s*([^\s(]+(?:\.(?:so|a|lib)(?:\.\d+)*)?)(?:\([^)]*\))?\s+\(([^\s(]+(?:\.(?:so|a|lib)(?:\.\d+)*)?)`:
both capture groups reduce to the maximal nonempty `[^\s(]` runs (the
optional extension suffix lies inside the run), separated by an optional
parenthesised member and mandatory whitespace before the opening paren of
the requester. -/
def satisfyRefMatch (line : String) : Option (String × String) :=
  let l1 := line.data.dropWhile goIsSpaceRe
  let m1 := l1.takeWhile (fun c => !goIsSpaceRe c && c ≠ '(')
  if m1 = [] then none
  else
    let r1 := l1.drop m1.length
    let r2opt : Option (List Char) :=
      match r1 with
      | '(' :: rest =>
        let inner := rest.takeWhile (fun c => c ≠ ')')
        match rest.drop inner.length with
        | ')' :: after => some after
        | _ => none
      | _ => some r1
    match r2opt with
    | none => none
    | some r2 =>
      let sp := r2.takeWhile goIsSpaceRe
      if sp = [] then none
      else
        match r2.drop sp.length with
        | '(' :: rest =>
          let m2 := rest.takeWhile (fun c => !goIsSpaceRe c && c ≠ '(')
          if m2 = [] then none else some (⟨m1⟩, ⟨m2⟩)
        | _ => none

/-- Greedy length of `(?:\.\d+)*` at the head of a list. -/
def soGroupsLen (l : List Char) : Nat :=
  match l with
  | '.' :: rest =>
    let d := rest.takeWhile Char.isDigit
    if h : d = [] then 0
    else 1 + d.length + soGroupsLen (rest.drop d.length)
  | _ => 0
termination_by l.length
decreasing_by
  simp only [List.length_cons, List.length_drop]
  omega

/-- Characters consumed by the extension alternation
`(?i)(?:lib|a|so(?:\.\d+)*)` at the head of a list (alternatives tried in
order, `so` groups greedy). -/
def extMatchLen (l : List Char) : Option Nat :=
  let ll := l.map Char.toLower
  if "lib".data.isPrefixOf ll then some 3
  else if "a".data.isPrefixOf ll then some 1
  else if "so".data.isPrefixOf ll then some (2 + soGroupsLen (ll.drop 2))
  else none

/-- Greedy backtracking of `[^\s]+\.EXT` (nothing follows the group): scan
the candidate positions of the literal `.` from the right and return the
length of the matched portion of the run. -/
def extScanBackAux (m : List Char) : Nat → Option Nat
  | 0 => none
  | i + 1 =>
    match m.drop (i + 1) with
    | '.' :: after =>
      match extMatchLen after with
      | some k => some (i + 1 + 1 + k)
      | none => extScanBackAux m i
    | _ => extScanBackAux m i

/-- Longest-body match of `\.(?:lib|a|so(?:\.\d+)*)` inside a run. -/
def extScanBack (m : List Char) : Option Nat :=
  extScanBackAux m (m.length - 1)

/-- The capture group of `reMapLibEntry` tried at one position:
`[A-Za-z]:[\\/][^\s]+\.EXT` or `/[^\s]+\.EXT`. -/
def mapLibEntryGroupAt (l : List Char) : Option String :=
  match l with
  | c0 :: ':' :: c2 :: rest =>
    if asciiAlpha c0 && (c2 = '/' || c2 = '\\') then
      let m := rest.takeWhile (fun c => !goIsSpaceRe c)
      match extScanBack m with
      | some k => some ⟨c0 :: ':' :: c2 :: m.take k⟩
      | none => none
    else none
  | '/' :: rest =>
    let m := rest.takeWhile (fun c => !goIsSpaceRe c)
    match extScanBack m with
    | some k => some ⟨'/' :: m.take k⟩
    | none => none
  | _ => none

/-- The `LOAD\s+` prefix alternative of `reMapLibEntry` tried at one
position (case-insensitive `LOAD`, then whitespace, then the group). -/
def loadTry (l : List Char) : Option String :=
  if (l.take 4).map Char.toLower = "load".data then
    let rest := l.drop 4
    let sp := rest.takeWhile goIsSpaceRe
    if sp = [] then none else mapLibEntryGroupAt (rest.drop sp.length)
  else none

/-- Leftmost scan for the `LOAD\s+`-prefixed alternative at positions ≥ 1. -/
def mapLibEntryScan : List Char → Option String
  | [] => none
  | c :: rest =>
    match loadTry (c :: rest) with
    | some r => some r
    | none => mapLibEntryScan rest

/-- The regexp `reMapLibEntry`, i.e.
`(?i)(?:LOAD\s+|^\s*)([A-Za-z]:[\\/][^\s]+\.(?:lib|a|so(?:\.\d+)*)|\/[^\s]+\.(?:lib|a|so(?:\.\d+)*))`;
`FindStringSubmatch` returns the leftmost match: position 0 may use either
the `LOAD` prefix or leading whitespace, later positions need `LOAD`. -/
def mapLibEntryMatch (line : String) : Option String :=
  let l := line.data
  match loadTry l with
  | some r => some r
  | none =>
    match mapLibEntryGroupAt (l.dropWhile goIsSpaceRe) with
    | some r => some r
    | none =>
      match l with
      | [] => none
      | _ :: rest => mapLibEntryScan rest

/-- Longest-body match of the literal `\.lib` inside a `[^\s"]` run. -/
def libScanBackAux (m : List Char) : Nat → Option Nat
  | 0 => none
  | i + 1 =>
    if ((m.drop (i + 1)).take 4).map Char.toLower = ".lib".data then
      some (i + 1 + 4)
    else libScanBackAux m i

/-- One attempt of the `reMSVCLibLine` group, i.e.
`(?i)([A-Za-z]:[\\/][^\s"]+\.lib|[^\s"]+\.lib)` at one position: returns the
matched text and its length. -/
def msvcGroupAt (l : List Char) : Option (String × Nat) :=
  match l with
  | c0 :: ':' :: c2 :: rest =>
    if asciiAlpha c0 && (c2 = '/' || c2 = '\\') then
      let m := rest.takeWhile (fun c => !goIsSpaceRe c && c ≠ '"')
      match libScanBackAux m (m.length - 1) with
      | some k => some (⟨c0 :: ':' :: c2 :: m.take k⟩, 3 + k)
      | none => none
    else
      let m := l.takeWhile (fun c => !goIsSpaceRe c && c ≠ '"')
      match libScanBackAux m (m.length - 1) with
      | some k => some (⟨m.take k⟩, k)
      | none => none
  | _ =>
    let m := l.takeWhile (fun c => !goIsSpaceRe c && c ≠ '"')
    match libScanBackAux m (m.length - 1) with
    | some k => some (⟨m.take k⟩, k)
    | none => none

/-- All non-overlapping matches of `reMSVCLibLine`, left to right
(`FindAllStringSubmatch`). -/
def msvcLibScan : List Char → List String
  | [] => []
  | c :: rest =>
    match msvcGroupAt (c :: rest) with
    | some (s, n) => s :: msvcLibScan (rest.drop (n - 1))
    | none => msvcLibScan rest
termination_by l => l.length
decreasing_by
  all_goals simp only [List.length_cons, List.length_drop]
  all_goals omega

/-- Go `reMSVCLibLine.FindAllStringSubmatch(line, -1)`. -/
def msvcLibMatches (line : String) : List String :=
  msvcLibScan line.data

/-- First index of a substring, Go `strings.Index`. -/
def firstIndexOfSub : List Char → List Char → Option Nat
  | l, needle =>
    if needle.isPrefixOf l then some 0
    else
      match l with
      | [] => none
      | _ :: t => (firstIndexOfSub t needle).map (· + 1)

/-- Go `libNameToPackage` (BinaryEdgesStrategy helpers): lowercase, cut at
the first `.so`, strip the `lib` prefix and the `.dll`/`.lib`/`.a`/`.dylib`
suffixes, then consult the fingerprint table with the cleaned name and fall
back to the original name. -/
def libNameToPackage (libName : String) : Option LibraryFingerprint :=
  let base := goToLower libName
  let base :=
    match firstIndexOfSub base.data ".so".data with
    | some idx => (⟨base.data.take idx⟩ : String)
    | none => base
  let base := goTrimLeading base "lib"
  let base := goTrimTrailing base ".dll"
  let base := goTrimTrailing base ".lib"
  let base := goTrimTrailing base ".a"
  let base := goTrimTrailing base ".dylib"
  match matchLibrary base with
  | some fp => some fp
  | none => matchLibrary libName

/-- Go `isExternalLibPath`: lexical prefix check on the normalised
lowercased path, for absolute paths (POSIX-absolute or drive-letter). -/
def isExternalLibPath (path projectRoot : String) : Bool :=
  if path = "" then false
  else
    let normPath := goToLower (goToSlash path)
    let normRoot0 := goToLower (goToSlash projectRoot)
    let normRoot := if goEndsWith normRoot0 "/" then normRoot0 else normRoot0 ++ "/"
    let driveAbs :=
      match path.data with
      | _ :: ':' :: c2 :: _ => c2 = '/' || c2 = '\\'
      | _ => false
    let isAbs := goIsAbs path || driveAbs
    if !isAbs then false
    else !goStartsWith normPath normRoot

/-- Parser state of Go `parseMapFile`: the satisfy-section flag, the pending
two-line child, the harvested external library paths (a `map[string]bool` in
insertion order) and the edge map. -/
structure MapParseState where
  inSatisfy : Bool := false
  pending : String := ""
  extPaths : List String := []
  edges : List (String × List String) := []
deriving Repr, DecidableEq

/-- Insertion into the `externalLibPaths` set. -/
def addExtPath (paths : List String) (p : String) : List String :=
  if paths.contains p then paths else paths ++ [p]

def lookupEdges (edges : List (String × List String)) (k : String) :
    Option (List String) :=
  match edges with
  | [] => none
  | (k', v) :: t => if k' = k then some v else lookupEdges t k

def updateEdges (edges : List (String × List String)) (k : String)
    (v : List String) : List (String × List String) :=
  match edges with
  | [] => []
  | (k', w) :: t => if k' = k then (k', v) :: t else (k', w) :: updateEdges t k v

/-- Go `edges[parent] = appendUnique(edges[parent], child)` (a missing key
reads as the empty slice). -/
def addEdge (edges : List (String × List String)) (parent child : String) :
    List (String × List String) :=
  match lookupEdges edges parent with
  | some cs => updateEdges edges parent (appendUnique cs child)
  | none => edges ++ [(parent, appendUnique [] child)]

/-- Record an external library path into the state. -/
def recordExtPath (projectRoot : String) (st : MapParseState) (p : String) :
    MapParseState :=
  if isExternalLibPath p projectRoot then
    { st with extPaths := addExtPath st.extPaths (goToSlash p) }
  else st

/-- The harvest tail of the `parseMapFile` loop body (linkermap.go lines
270-282): always collect library paths from `reMapLibEntry` and
`reMSVCLibLine`. -/
def mapHarvest (projectRoot : String) (st : MapParseState) (line : String) :
    MapParseState :=
  let st :=
    match mapLibEntryMatch line with
    | some libPath => recordExtPath projectRoot st libPath
    | none => st
  (msvcLibMatches line).foldl (recordExtPath projectRoot) st

/-- The edge recording shared by both satisfy formats:
`edges[parentPkg.Name] = appendUnique(..., childPkg.Name)` when both paths
map to (distinct) fingerprint packages. -/
def recordSatisfyEdge (st : MapParseState) (childPath parentPath : String) :
    MapParseState :=
  match libNameToPackage (goBase childPath), libNameToPackage (goBase parentPath) with
  | some cp, some pp =>
    if cp.name ≠ pp.name then { st with edges := addEdge st.edges pp.name cp.name }
    else st
  | _, _ => st

/-- One iteration of the `parseMapFile` scanner loop (linkermap.go lines
174-283): the satisfy-section state machine (two-line child/parent pairing,
single-line fallback, section exit) followed by the always-on harvest. -/
def mapFileStep (projectRoot : String) (st : MapParseState) (line : String) :
    MapParseState :=
  if goContains line "Archive member included" && goContains line "satisfy" then
    { st with inSatisfy := true, pending := "" }
  else if st.inSatisfy then
    let trimmed := goTrimSpace line
    if trimmed = "" then st
    else if st.pending = "" then
      match satisfyChildMatch line with
      | some m =>
        let p := goToSlash m
        { recordExtPath projectRoot st p with pending := p }
      | none =>
        match satisfyRefMatch line with
        | some (m1, m2) =>
          let childPath := goTrimSpace m1
          let parentPath := goTrimSpace m2
          let st := recordExtPath projectRoot st childPath
          let st := recordExtPath projectRoot st parentPath
          recordSatisfyEdge st childPath parentPath
        | none =>
          let st :=
            if !goStartsWith trimmed "/" && !goContains trimmed ":\\" &&
                !goContains trimmed ":/" then
              { st with inSatisfy := false, pending := "" }
            else st
          mapHarvest projectRoot st line
    else
      let childPath := st.pending
      let st := { st with pending := "" }
      let (st, parentPath) :=
        match satisfyChildMatch trimmed with
        | some pm =>
          let pp := goToSlash pm
          (recordExtPath projectRoot st pp, pp)
        | none => (st, "")
      if parentPath ≠ "" then recordSatisfyEdge st childPath parentPath
      else st
  else
    mapHarvest projectRoot st line

/-- Go `parseMapFile` over the lines of one `.map` file. -/
def parseMapFile (projectRoot : String) (lines : List String) : MapParseState :=
  lines.foldl (mapFileStep projectRoot) {}

/-- The component construction of `ScanWithEdges` (linkermap.go lines
111-148): map each harvested external library path through the fingerprint
table (full path, then basename), record evidence and infer versions. -/
def linkerMapComponents (extPaths : List String) : List Component :=
  let seen := extPaths.foldl (fun seen libPath =>
    let fp0 :=
      match matchLibrary libPath with
      | some fp => some fp
      | none => matchLibrary (goBase libPath)
    match fp0 with
    | none => seen
    | some fp =>
      let c :=
        match lookupKey seen fp.name with
        | some c0 => c0
        | none =>
          { name := fp.name, version := "unknown", purl := fp.purl,
            detectionSource := "linker-map", description := fp.description }
      let c := { c with linkLibraries := appendUnique c.linkLibraries (goBase libPath) }
      let c := inferVersion fp c (extractVersionFromPath libPath)
      let c := inferVersion fp c (extractVersionFromLibName (goBase libPath))
      match lookupKey seen fp.name with
      | some _ => updateKey seen fp.name c
      | none => seen ++ [(fp.name, c)]) []
  seen.map Prod.snd

/-- The two-line satisfy section of the spec's linker-map scenario 4. -/
def linkerMapScenarioLines : List String :=
  ["Archive member included to satisfy reference by file (symbol)",
   "c:/toolchain/nofp\\libgcc.a(_arm_addsubsf3.o)",
   "                              build/vddcheck.o (__aeabi_fsub)",
   "c:/toolchain/nofp\\libc_nano.a(exit.o)",
   "                              c:/toolchain/nofp\\libnosys.a(_exit.o) (__aeabi_exit)"]

/-- C6: evaluation of the linker-map strategy on the spec's scenario 4.  The
two-line satisfy parser does extract all three library paths (libgcc,
libc_nano, libnosys) and pairs the second child with its library requester —
but the strategy then emits NO components and NO edge, because the
fingerprint database contains no entry for any of libgcc, libc_nano or
libnosys: `MatchLibrary`/`libNameToPackage` return nil, so the components
are skipped and the `libnosys → libc_nano` edge is dropped.  This
contradicts the spec's expected output and the repository's own tests
(TestLinkerMap_DetectsLibgcc, TestLinkerMap_DetectsLibnosys). -/
theorem c6_linkermap_scenario_evaluation :
    (parseMapFile "/project" linkerMapScenarioLines).extPaths =
        ["c:/toolchain/nofp\\libgcc.a", "c:/toolchain/nofp\\libc_nano.a",
         "c:/toolchain/nofp\\libnosys.a"] ∧
      (parseMapFile "/project" linkerMapScenarioLines).edges = [] ∧
      linkerMapComponents
        (parseMapFile "/project" linkerMapScenarioLines).extPaths = [] ∧
      libNameToPackage (goBase "c:/toolchain/nofp\\libc_nano.a") = none ∧
      libNameToPackage (goBase "c:/toolchain/nofp\\libnosys.a") = none := by
  decide

/-! ## Recursive dependency tree (`internal/model/deptree.go`) -/

/-- Modelled from the spec: `normalizeKey` lives in the component model file
that is not part of the sources here (only its callers in deptree.go are).
Per spec §3 invariant 5, normalization lowercases and replaces `_` and `.`
with `-` — the same transformation as the scanner's `normalizeName`. -/
def normalizeKey (name : String) : String :=
  normalizeName name

/-- Modelled from the spec: `Component.Key()` is defined in the missing
component model file; per spec §3 invariant 1 and the comments in deptree.go
("normalises the name and appends @version", "X@1.0 and X@2.0 are distinct
while nlohmann_json == nlohmann-json") it is `normalizeKey(name)+"@"+version`. -/
def componentKey (c : Component) : String :=
  normalizeKey c.name ++ "@" ++ c.version

/-- TreeNode of deptree.go: a node of the recursive npm-style tree. -/
structure TreeNode where
  name : String := ""
  version : String := ""
  purl : String := ""
  dependencyType : String := ""
  description : String := ""
  detectionSource : String := ""
  revision : String := ""
  channel : String := ""
  includePaths : List String := []
  linkLibraries : List String := []
  children : List TreeNode := []

/-- The TreeNode carrying a component's display fields (used both for
expanded nodes and for cycle-break leaves, which differ only in children). -/
def nodeFields (c : Component) (children : List TreeNode) : TreeNode :=
  { name := c.name, version := c.version, purl := c.purl,
    dependencyType := if c.isDirect then "direct" else "transitive",
    description := c.description, detectionSource := c.detectionSource,
    revision := c.revision, channel := c.channel,
    includePaths := c.includePaths, linkLibraries := c.linkLibraries,
    children := children }

/-- The placeholder leaf for a child name with no component
(deptree.go lines 127-134). -/
def placeholderNode (childName : String) : TreeNode :=
  { name := childName, version := "unknown",
    purl := "pkg:generic/" ++ childName, dependencyType := "transitive",
    children := [] }

/-- The `ByName` lookup map of `BuildDependencyTree`: every component is
stored under both `normalizeKey(c.Name)` and `c.Name`, later entries
overwriting earlier ones (Go map assignment). -/
def lookupByName (comps : List Component) (k : String) : Option Component :=
  comps.reverse.find? (fun c => normalizeKey c.name = k || c.name = k)

/-- Ascending insertion of a string (helper for `sort.Strings`). -/
def insertSorted (s : String) : List String → List String
  | [] => [s]
  | x :: t => if s ≤ x then s :: x :: t else x :: insertSorted s t

/-- Go `sort.Strings`: sort the child names ascending. -/
def sortStrings (l : List String) : List String :=
  l.foldr insertSorted []

/-- Ascending insertion of a component by display name (helper for the
`sort.Slice` over direct dependencies). -/
def insertSortedComp (c : Component) : List Component → List Component
  | [] => [c]
  | x :: t => if c.name ≤ x.name then c :: x :: t else x :: insertSortedComp c t

/-- The `sort.Slice(directs, Name <)` of `buildRecursiveTree`. -/
def sortComponentsByName (l : List Component) : List Component :=
  l.foldr insertSortedComp []

/-- Go `buildNode` (deptree.go lines 95-164), with an explicit fuel argument
standing in for the call stack: mark the current component's key as an
ancestor, sort the children, and for each child either emit a placeholder
leaf (unknown name), a cycle-break leaf (key already on the path), or
recurse with the extended ancestor set.  The fuel-exhaustion branch returns
a childless node; the fuel-stability theorem shows it is never reached for
fuel at least `treeFuel`. -/
def buildNodeF (comps : List Component) : Nat → Component → List String → TreeNode
  | 0, c, _ => nodeFields c []
  | fuel + 1, c, ancestors =>
    let anc' := componentKey c :: ancestors
    let childNames := sortStrings c.dependencies
    let children := childNames.map (fun childName =>
      match lookupByName comps (normalizeKey childName) with
      | none => placeholderNode childName
      | some childComp =>
        if componentKey childComp ∈ anc' then nodeFields childComp []
        else buildNodeF comps fuel childComp anc')
    nodeFields c children

/-- Number of distinct component keys not yet on the ancestor path — the
decreasing measure of `buildNode`'s recursion. -/
def keysLeft (comps : List Component) (anc : List String) : Nat :=
  (((comps.map componentKey).dedup).filter (fun k => k ∉ anc)).length

/-- Enough fuel for any root-to-leaf chain: one more than the number of
distinct component keys. -/
def treeFuel (comps : List Component) : Nat :=
  keysLeft comps [] + 1

/-- Go `buildRecursiveTree` with explicit fuel: sort the direct components
by name and build one root per direct with an empty ancestor set. -/
def buildRecursiveTreeF (comps : List Component) (fuel : Nat) : List TreeNode :=
  let directs := sortComponentsByName (comps.filter (fun c => c.isDirect))
  directs.map (fun c => buildNodeF comps fuel c [])

/-- Go `buildRecursiveTree`. -/
def buildRecursiveTree (comps : List Component) : List TreeNode :=
  buildRecursiveTreeF comps (treeFuel comps)

/-- Identity key of a tree node, per the spec's identity invariant. -/
def nodeKey (n : TreeNode) : String :=
  normalizeKey n.name ++ "@" ++ n.version

/-- Root-to-node paths in a tree: `PathTo r p n` holds when descending from
`r` through the `children` lists reaches `n`, with `p` listing the strict
ancestors of `n` from the root down. -/
inductive PathTo : TreeNode → List TreeNode → TreeNode → Prop
  | here (n : TreeNode) : PathTo n [] n
  | child {r m : TreeNode} {p : List TreeNode} {n : TreeNode} :
      m ∈ r.children → PathTo m p n → PathTo r (r :: p) n

theorem nodeFields_children (c : Component) (ch : List TreeNode) :
    (nodeFields c ch).children = ch := rfl

theorem nodeKey_nodeFields (c : Component) (ch : List TreeNode) :
    nodeKey (nodeFields c ch) = componentKey c := rfl

theorem nodeKey_buildNodeF (comps : List Component) (fuel : Nat) (c : Component)
    (anc : List String) : nodeKey (buildNodeF comps fuel c anc) = componentKey c := by
  cases fuel <;> rfl

theorem pathTo_leaf (r : TreeNode) (hr : r.children = []) (p : List TreeNode)
    (N : TreeNode) (h : PathTo r p N) : p = [] ∧ N = r := by
  cases h with
  | here => exact ⟨rfl, rfl⟩
  | child hm hp =>
    rw [hr] at hm
    simp at hm

theorem lookupByName_mem (comps : List Component) (k : String) (c : Component)
    (h : lookupByName comps k = some c) : c ∈ comps := by
  unfold lookupByName at h
  have := List.mem_of_find?_eq_some h
  exact List.mem_reverse.mp this

theorem filter_notin_cons_lt (l : List String) (k : String) (anc : List String)
    (hnd : l.Nodup) (hk : k ∈ l) (hkanc : k ∉ anc) :
    (l.filter (fun x => x ∉ k :: anc)).length <
      (l.filter (fun x => x ∉ anc)).length := by
  induction l with
  | nil => simp at hk
  | cons x t ih =>
    rw [List.nodup_cons] at hnd
    rcases List.mem_cons.mp hk with hk' | hk'
    · subst hk'
      have hx1 : (decide (k ∉ k :: anc)) = false := by simp
      have hx2 : (decide (k ∉ anc)) = true := by simp [hkanc]
      rw [List.filter_cons, List.filter_cons, hx1, hx2]
      have hcong : t.filter (fun x => x ∉ k :: anc) = t.filter (fun x => x ∉ anc) := by
        apply List.filter_congr
        intro y hy
        have hyk : y ≠ k := fun hyk => hnd.1 (hyk ▸ hy)
        simp [List.mem_cons, hyk]
      rw [hcong]
      simp
    · have hxk : x ≠ k := fun hxk => hnd.1 (hxk ▸ hk')
      have heq : (decide (x ∉ k :: anc)) = (decide (x ∉ anc)) := by
        simp [List.mem_cons, hxk]
      rw [List.filter_cons, List.filter_cons, heq]
      split
      · simp only [List.length_cons]
        exact Nat.succ_lt_succ (ih hnd.2 hk')
      · exact ih hnd.2 hk'

theorem keysLeft_cons_lt (comps : List Component) (anc : List String)
    (c : Component) (hc : c ∈ comps) (hanc : componentKey c ∉ anc) :
    keysLeft comps (componentKey c :: anc) < keysLeft comps anc := by
  unfold keysLeft
  apply filter_notin_cons_lt
  · exact List.nodup_dedup _
  · exact List.mem_dedup.mpr (List.mem_map_of_mem componentKey hc)
  · exact hanc

theorem buildNodeF_fuel (comps : List Component) :
    ∀ (n m : Nat) (c : Component) (anc : List String),
      keysLeft comps (componentKey c :: anc) < n →
      keysLeft comps (componentKey c :: anc) < m →
      buildNodeF comps n c anc = buildNodeF comps m c anc := by
  intro n
  induction n with
  | zero =>
    intro m c anc h1 h2
    exact absurd h1 (Nat.not_lt_zero _)
  | succ n ih =>
    intro m c anc h1 h2
    cases m with
    | zero => exact absurd h2 (Nat.not_lt_zero _)
    | succ m =>
      simp only [buildNodeF]
      congr 1
      apply List.map_congr_left
      intro childName hcn
      cases hl : lookupByName comps (normalizeKey childName) with
      | none => rfl
      | some childComp =>
        simp only
        split
        · rfl
        · rename_i hmem
          have hcc : childComp ∈ comps := lookupByName_mem _ _ _ hl
          have hdec := keysLeft_cons_lt comps (componentKey c :: anc) childComp hcc hmem
          exact ih m childComp (componentKey c :: anc)
            (lt_of_lt_of_le hdec (Nat.lt_succ_iff.mp h1))
            (lt_of_lt_of_le hdec (Nat.lt_succ_iff.mp h2))

theorem buildNodeF_path (comps : List Component) :
    ∀ (fuel : Nat) (c : Component) (anc : List String),
      keysLeft comps (componentKey c :: anc) < fuel →
      (componentKey c :: anc).Nodup →
      ∀ (p : List TreeNode) (N : TreeNode),
        PathTo (buildNodeF comps fuel c anc) p N →
          (anc.reverse ++ p.map nodeKey).Nodup ∧
            (N.children ≠ [] →
              (anc.reverse ++ p.map nodeKey ++ [nodeKey N]).Nodup) := by
  intro fuel
  induction fuel with
  | zero =>
    intro c anc h1
    exact absurd h1 (Nat.not_lt_zero _)
  | succ fuel ih =>
    intro c anc h1 hnd p N hpath
    have hndanc : anc.Nodup := (List.nodup_cons.mp hnd).2
    have hckanc : componentKey c ∉ anc := (List.nodup_cons.mp hnd).1
    have hsingle : (anc.reverse ++ [componentKey c]).Nodup := by
      rw [List.nodup_append]
      refine ⟨List.nodup_reverse.mpr hndanc, List.nodup_singleton _, ?_⟩
      intro a ha hb
      rw [List.mem_singleton] at hb
      subst hb
      exact hckanc (List.mem_reverse.mp ha)
    cases hpath with
    | here =>
      constructor
      · simpa using List.nodup_reverse.mpr hndanc
      · intro _
        rw [nodeKey_buildNodeF]
        simpa using hsingle
    | child hm hp' =>
      rename_i mnode p'
      have hm' : mnode ∈ (sortStrings c.dependencies).map (fun childName =>
          match lookupByName comps (normalizeKey childName) with
          | none => placeholderNode childName
          | some childComp =>
            if componentKey childComp ∈ componentKey c :: anc then
              nodeFields childComp []
            else buildNodeF comps fuel childComp (componentKey c :: anc)) := by
        simpa only [buildNodeF, nodeFields_children] using hm
      obtain ⟨childName, hcn, hfn⟩ := List.mem_map.mp hm'
      have hroot : nodeKey (buildNodeF comps (fuel + 1) c anc) = componentKey c :=
        nodeKey_buildNodeF comps (fuel + 1) c anc
      cases hlk : lookupByName comps (normalizeKey childName) with
      | none =>
        simp only [hlk] at hfn
        obtain ⟨hp'nil, hNm⟩ := pathTo_leaf mnode (by rw [← hfn]; rfl) p' N hp'
        subst hp'nil
        constructor
        · simp only [List.map_cons, List.map_nil, hroot]
          simpa using hsingle
        · intro hch
          rw [hNm, ← hfn] at hch
          exact absurd rfl hch
      | some childComp =>
        simp only [hlk] at hfn
        by_cases hmem : componentKey childComp ∈ componentKey c :: anc
        · rw [if_pos hmem] at hfn
          obtain ⟨hp'nil, hNm⟩ := pathTo_leaf mnode (by rw [← hfn]; rfl) p' N hp'
          subst hp'nil
          constructor
          · simp only [List.map_cons, List.map_nil, hroot]
            simpa using hsingle
          · intro hch
            rw [hNm, ← hfn] at hch
            exact absurd rfl hch
        · rw [if_neg hmem] at hfn
          have hcc : childComp ∈ comps := lookupByName_mem _ _ _ hlk
          have hdec := keysLeft_cons_lt comps (componentKey c :: anc) childComp hcc hmem
          have hih := ih childComp (componentKey c :: anc)
            (lt_of_lt_of_le hdec (Nat.lt_succ_iff.mp h1))
            (List.nodup_cons.mpr ⟨hmem, hnd⟩) p' N (by rw [hfn]; exact hp')
          constructor
          · have := hih.1
            rw [List.reverse_cons] at this
            simp only [List.map_cons, hroot]
            simpa [List.append_assoc] using this
          · intro hch
            have := hih.2 hch
            rw [List.reverse_cons] at this
            simp only [List.map_cons, hroot]
            simpa [List.append_assoc] using this

theorem keysLeft_cons_le (comps : List Component) (k : String) (anc : List String) :
    keysLeft comps (k :: anc) ≤ keysLeft comps anc := by
  unfold keysLeft
  apply List.Sublist.length_le
  apply List.monotone_filter_right
  intro a ha
  simp only [decide_eq_true_eq, List.mem_cons, not_or] at ha ⊢
  exact ha.2

/-- C4: in the tree built by `buildRecursiveTree`, the path from a root to any
node carries no repeated identity key; whenever a child's key already lies on
the path it becomes a childless leaf (so even the key of a non-leaf node is
fresh relative to its ancestors); and the builder is stable in the fuel bound,
i.e. recursion terminates: any fuel of at least `treeFuel comps` (one more
than the number of distinct component keys) yields the same finite tree. -/
theorem c4_tree_cycle_safe :
    (∀ (comps : List Component) (root : TreeNode) (p : List TreeNode) (N : TreeNode),
        root ∈ buildRecursiveTree comps → PathTo root p N →
          (p.map nodeKey).Nodup ∧
            (N.children ≠ [] → (p.map nodeKey ++ [nodeKey N]).Nodup)) ∧
      ∀ (comps : List Component) (fuel : Nat),
        treeFuel comps ≤ fuel →
          buildRecursiveTreeF comps fuel = buildRecursiveTree comps := by
  constructor
  · intro comps root p N hroot hpath
    simp only [buildRecursiveTree, buildRecursiveTreeF, List.mem_map] at hroot
    obtain ⟨c, hc, hbc⟩ := hroot
    subst hbc
    have h0 := keysLeft_cons_le comps (componentKey c) []
    have h1 : keysLeft comps (componentKey c :: []) < treeFuel comps := by
      unfold treeFuel
      omega
    have hnd : (componentKey c :: ([] : List String)).Nodup := List.nodup_singleton _
    have := buildNodeF_path comps (treeFuel comps) c [] h1 hnd p N hpath
    simpa using this
  · intro comps fuel hf
    unfold buildRecursiveTree buildRecursiveTreeF
    apply List.map_congr_left
    intro c hc
    have h0 := keysLeft_cons_le comps (componentKey c) []
    have h1 : keysLeft comps (componentKey c :: []) < treeFuel comps := by
      unfold treeFuel
      omega
    exact buildNodeF_fuel comps fuel (treeFuel comps) c []
      (lt_of_lt_of_le h1 hf) h1

/-- A two-component dependency cycle: `a` (direct) depends on `b`, and `b`
depends back on `a`. -/
def compCycA : Component :=
  { name := "a", version := "1.0", isDirect := true, dependencies := ["b"] }

/-- Second half of the cycle. -/
def compCycB : Component :=
  { name := "b", version := "1.0", isDirect := false, dependencies := ["a"] }

/-- The cyclic two-component input. -/
def demoComps : List Component := [compCycA, compCycB]

/-- The cycle-break leaf for `a` reached below `b`. -/
def demoLeaf : TreeNode := nodeFields compCycA []

/-- The interior node for `b`, whose child is the cycle-break leaf. -/
def demoMid : TreeNode := nodeFields compCycB [demoLeaf]

/-- The root node for the direct component `a`. -/
def demoRoot : TreeNode := nodeFields compCycA [demoMid]

theorem c4_tree_cycle_safe_witness :
    (demoRoot ∈ buildRecursiveTree demoComps ∧
        PathTo demoRoot [demoRoot, demoMid] demoLeaf ∧
        (([demoRoot, demoMid].map nodeKey).Nodup ∧
          (demoLeaf.children ≠ [] →
            ([demoRoot, demoMid].map nodeKey ++ [nodeKey demoLeaf]).Nodup))) ∧
      treeFuel demoComps ≤ 5 ∧
      buildRecursiveTreeF demoComps 5 = buildRecursiveTree demoComps := by
  have htree : buildRecursiveTree demoComps = [demoRoot] := by rfl
  have hmem : demoRoot ∈ buildRecursiveTree demoComps := by
    rw [htree]
    exact List.mem_singleton_self _
  have hm1 : demoMid ∈ demoRoot.children := List.mem_singleton_self _
  have hm2 : demoLeaf ∈ demoMid.children := List.mem_singleton_self _
  have hpath : PathTo demoRoot [demoRoot, demoMid] demoLeaf :=
    .child hm1 (.child hm2 (.here demoLeaf))
  exact ⟨⟨hmem, hpath, c4_tree_cycle_safe.1 demoComps demoRoot _ _ hmem hpath⟩,
    by decide, c4_tree_cycle_safe.2 demoComps 5 (by decide)⟩

end CppSbom
